import Mathlib

/-!
Verification of the audio-transcription chunking pipeline
(`src/server/routes.ts`, `src/server/openai.ts`).

The TypeScript code is shallowly embedded: JavaScript strings are modelled
as lists of characters (`Str`), the external collaborators (media probe,
media transcoder, speech API) are modelled as oracles following the
capability contracts of spec section 6 (each call either produces its
result or fails), and the temporary files of one request are modelled as an
explicit disk state (a list of `TempFile`s currently present).
-/

namespace Audio1712

/-- JavaScript strings are modelled as lists of characters. -/
abbrev Str := List Char

/-- The whitespace class used by the model for JS `trim` and the regex
class `\s` (space, tab, carriage return, line feed). -/
def wsChar (c : Char) : Bool := c.isWhitespace

/-- Model of JS `String.prototype.trim`: drop whitespace from both ends. -/
def trimStr (s : Str) : Str :=
  ((s.dropWhile wsChar).reverse.dropWhile wsChar).reverse

/-- Worker for `splitWsPlus`. The second argument is `some acc` while a
(possibly empty) piece with accumulated reversed characters `acc` is being
collected, and `none` while a whitespace run that has already emitted the
piece before it is being skipped. -/
def splitWsAux : Str → Option Str → List Str
  | [], none => [[]]
  | [], some acc => [acc.reverse]
  | c :: cs, none =>
      if wsChar c then splitWsAux cs none else splitWsAux cs (some [c])
  | c :: cs, some acc =>
      if wsChar c then acc.reverse :: splitWsAux cs none
      else splitWsAux cs (some (c :: acc))

/-- Model of JS `String.prototype.split(/\s+/)`: split on maximal
whitespace runs, keeping a leading (resp. trailing) empty piece when the
string starts (resp. ends) with whitespace, and returning one empty piece
on the empty string. -/
def splitWsPlus (s : Str) : List Str := splitWsAux s (some [])

/-- Fuel-driven decimal digits of a natural number, least significant
first (structural so that the kernel can evaluate it). -/
def natDigitsAux : Nat → Nat → List Nat
  | _, 0 => []
  | 0, _ + 1 => []
  | fuel + 1, n + 1 => ((n + 1) % 10) :: natDigitsAux fuel ((n + 1) / 10)

/-- Model of JS decimal rendering of a natural number (template-literal
interpolation of a nonnegative integer). -/
def natStr (n : Nat) : Str :=
  if n = 0 then ['0'] else ((natDigitsAux n n).map Nat.digitChar).reverse

/-- Model of JS `String.prototype.toLowerCase` (ASCII is all the code
needs). -/
def lowerStr (s : Str) : Str := s.map Char.toLower

/-- A natural number as a rational (kernel-computable). -/
def natQ (n : Nat) : ℚ := Rat.divInt n 1

/-- Rational division, computed through `Rat.divInt` so that the kernel
can evaluate it on concrete inputs. -/
def ratDiv (a b : ℚ) : ℚ := Rat.divInt (a.num * (b.den : Int)) ((a.den : Int) * b.num)

/-- Rational multiplication, computed through `Rat.divInt` so that the
kernel can evaluate it on concrete inputs. -/
def ratMul (a b : ℚ) : ℚ := Rat.divInt (a.num * b.num) ((a.den : Int) * b.den)

/-- Rational addition, computed through `Rat.divInt` so that the kernel
can evaluate it on concrete inputs. -/
def ratAdd (a b : ℚ) : ℚ :=
  Rat.divInt (a.num * (b.den : Int) + b.num * (a.den : Int)) ((a.den : Int) * b.den)

/-- The temporary files a single request can create: the multer upload,
the OPUS→MP3 converted intermediate, and the numbered chunk files. -/
inductive TempFile
  | upload : TempFile
  | conv : TempFile
  | chunk : Nat → TempFile
deriving DecidableEq, Repr

/-- The set of this request's temporary files currently present on disk. -/
abbrev Disk := List TempFile

/-- Creation of a temp file on disk (idempotent insertion). -/
def addFile (f : TempFile) (d : Disk) : Disk := if f ∈ d then d else f :: d

/-- Removal of a temp file, modelling `fs.unlinkSync` guarded by
`fs.existsSync` (a no-op when the file is absent). -/
def rmFile (f : TempFile) (d : Disk) : Disk := d.filter (fun g => g ≠ f)

/-- A JS error object as inspected by `transcribeAudio`'s catch block:
only the `code` and `status` fields are consulted (plain `Error`s thrown
inside the try block have neither). -/
structure JsError where
  code : Option Str := none
  status : Option Nat := none
deriving DecidableEq, Repr

/-- Localized message for an invalid API key (`openai.ts` line 58). -/
def msgInvalidKey : Str := ("Chave da API OpenAI inválida. Verifique a configuração.").data

/-- Localized message for exhausted quota (`openai.ts` line 62). -/
def msgQuota : Str := ("Cota da API OpenAI excedida. Tente novamente mais tarde.").data

/-- Localized message for an unavailable model (`openai.ts` line 66). -/
def msgModelNotFound : Str := ("Modelo de transcrição não disponível. Tente novamente mais tarde.").data

/-- Localized message for HTTP 413 payload too large (`openai.ts` line 70). -/
def msgTooLarge : Str := ("Arquivo muito grande para processamento. Reduza o tamanho do arquivo.").data

/-- Localized remediation message for an HTTP 400 rejection of an `.m4a`
file (`openai.ts` line 75). -/
def msgM4a : Str := ("Este arquivo M4A não é compatível com o serviço de transcrição. Tente converter o arquivo para MP3 ou WAV antes de fazer o upload.").data

/-- Localized message for a generic HTTP 400 rejection (`openai.ts` line 77). -/
def msgBadRequest : Str := ("Formato de arquivo não suportado ou arquivo corrompido.").data

/-- Localized message for server-side 5xx errors (`openai.ts` line 81). -/
def msg5xx : Str := ("Erro temporário do serviço de transcrição. Tente novamente em alguns minutos.").data

/-- Localized message for connectivity failures (`openai.ts` line 86). -/
def msgConnection : Str := ("Erro de conexão com o serviço de transcrição. Verifique sua conexão com a internet.").data

/-- The generic fallback message (`openai.ts` line 90). -/
def msgGeneric : Str := ("Erro ao processar o arquivo de áudio. Verifique se o arquivo não está corrompido e tente novamente.").data

/-- The error rethrown by `splitAudioIntoChunks` (`routes.ts` line 149). -/
def splitFailMsg : Str := ("Falha ao dividir arquivo de áudio").data

/-- The error thrown by `getAudioDuration` (`routes.ts` line 87). -/
def durFailMsg : Str := ("Falha ao obter duração do áudio").data

/-- The catch cascade of `transcribeAudio` (`openai.ts` lines 53-91),
mapping a caught error object to the localized user-facing message that is
rethrown. -/
def mapTranscriptionError (e : JsError) (originalFilename : Option Str) : Str :=
  if e.code = some (("invalid_api_key").data) then msgInvalidKey
  else if e.code = some (("insufficient_quota").data) then msgQuota
  else if e.code = some (("model_not_found").data) then msgModelNotFound
  else if e.status = some 413 then msgTooLarge
  else if e.status = some 400 then
    match originalFilename with
    | some fn =>
        if ((".m4a").data).isSuffixOf (lowerStr fn) then msgM4a else msgBadRequest
    | none => msgBadRequest
  else if (match e.status with | some s => decide (500 ≤ s) | none => false : Bool) then msg5xx
  else if e.code = some (("ENOTFOUND").data) ∨ e.code = some (("ECONNREFUSED").data) then
    msgConnection
  else msgGeneric

/-- The value returned by a successful `transcribeAudio` call
(`openai.ts` lines 48-51): the trimmed text and an always-absent duration. -/
structure TranscriptionResult where
  text : Str
  duration : Option ℚ
deriving DecidableEq, Repr

/-- Model of `transcribeAudio` (`openai.ts` lines 20-92). `fileExists`
models `fs.existsSync(audioFilePath)`, `api` models the outcome of the
OpenAI call (raw text, or a thrown error object). Internal throws (file
missing, empty transcript) are plain `Error`s and are remapped by the
catch block like any other caught error, landing on the generic message. -/
def transcribeAudio (fileExists : Bool) (api : Except JsError Str)
    (originalFilename : Option Str) : Except Str TranscriptionResult :=
  match (if fileExists = false then Except.error ({} : JsError)
         else match api with
           | .error e => .error e
           | .ok t =>
               if trimStr t = [] then .error ({} : JsError)
               else .ok (⟨trimStr t, none⟩ : TranscriptionResult)) with
  | .ok r => .ok r
  | .error e => .error (mapTranscriptionError e originalFilename)

/-- The outcome of one transcoder (`ffmpeg`) invocation, following the
capability contract of spec section 6 (it either returns, having produced
an output file of some size or no file at all, or it fails, producing no
output file). -/
inductive ExecOutcome
  | fail : ExecOutcome
  | ok : Option Nat → ExecOutcome
deriving DecidableEq, Repr

/-- One recorded transcoder invocation of the splitter: start offset,
fixed chunk duration, and the output file name. -/
structure Invocation where
  start : ℚ
  dur : ℚ
  outName : Str
deriving DecidableEq, Repr

/-- The chunk file name generated at `routes.ts` line 106:
`chunk_<timestamp>_<i+1>.mp3`. -/
def chunkName (ts i : Nat) : Str :=
  ("chunk_").data ++ natStr ts ++ ("_").data ++ natStr (i + 1) ++ (".mp3").data

/-- Model of `getAudioDuration` (`routes.ts` lines 79-89): the probe
capability either yields the duration in seconds or fails. -/
def getAudioDuration (probe : Option ℚ) : Except Str ℚ :=
  match probe with
  | some d => .ok d
  | none => .error durFailMsg

/-- Decidable equality for `Except`, used to evaluate pipeline outcomes on
concrete inputs. -/
instance {ε α : Type} [DecidableEq ε] [DecidableEq α] : DecidableEq (Except ε α) := fun a b =>
  match a, b with
  | .ok x, .ok y =>
      if h : x = y then .isTrue (by rw [h])
      else .isFalse (by intro hc; cases hc; exact h rfl)
  | .error x, .error y =>
      if h : x = y then .isTrue (by rw [h])
      else .isFalse (by intro hc; cases hc; exact h rfl)
  | .ok _, .error _ => .isFalse (by intro hc; cases hc)
  | .error _, .ok _ => .isFalse (by intro hc; cases hc)

/-- Result of `splitAudioIntoChunks`, together with instrumentation: the
chunk index list (or the thrown error), the disk state, the transcoder
invocations made, and how many chunk files were created on disk. -/
structure SplitOut where
  res : Except Str (List Nat)
  disk : Disk
  invs : List Invocation
  created : Nat
deriving DecidableEq, Repr

/-- The `for` loop of `splitAudioIntoChunks` (`routes.ts` lines 103-133)
plus the surrounding empty-check and catch block (lines 135-150). `i` is
the loop counter, `rem` the number of remaining iterations (the loop runs
while `i < numChunks`). On a transcoder failure the catch block deletes
the chunks accepted so far and rethrows; an output file is accepted only
when it exists with size > 1000 bytes, an undersized file is deleted and
skipped; if no chunk survives, the function fails. -/
def splitLoop (exec : Nat → ExecOutcome) (ts : Nat) (chunkDurationSeconds : ℚ) :
    Nat → Nat → List Nat → Disk → List Invocation → Nat → SplitOut
  | _, 0, chunks, disk, invs, created =>
      if chunks = [] then ⟨.error splitFailMsg, disk, invs, created⟩
      else ⟨.ok chunks, disk, invs, created⟩
  | i, rem + 1, chunks, disk, invs, created =>
      let inv : Invocation :=
        ⟨ratMul (natQ i) chunkDurationSeconds, chunkDurationSeconds, chunkName ts i⟩
      match exec i with
      | .fail =>
          ⟨.error splitFailMsg,
           chunks.foldl (fun d c => rmFile (TempFile.chunk c) d) disk,
           invs ++ [inv], created⟩
      | .ok none =>
          splitLoop exec ts chunkDurationSeconds (i + 1) rem chunks disk
            (invs ++ [inv]) created
      | .ok (some size) =>
          if 1000 < size then
            splitLoop exec ts chunkDurationSeconds (i + 1) rem (chunks ++ [i])
              (addFile (TempFile.chunk i) disk) (invs ++ [inv]) (created + 1)
          else
            splitLoop exec ts chunkDurationSeconds (i + 1) rem chunks
              (rmFile (TempFile.chunk i) (addFile (TempFile.chunk i) disk))
              (invs ++ [inv]) (created + 1)

/-- Model of `splitAudioIntoChunks` (`routes.ts` lines 92-151): probe the
total duration, compute `numChunks = ceil(totalDuration / chunkDuration)`,
then run the chunking loop. A probe failure is caught by the function's
own catch block (no chunk exists yet) and rethrown as the split error. -/
def splitAudioIntoChunks (probe : Option ℚ) (exec : Nat → ExecOutcome) (ts : Nat)
    (chunkDurationSeconds : ℚ) (disk : Disk) : SplitOut :=
  match getAudioDuration probe with
  | .error _ => ⟨.error splitFailMsg, disk, [], 0⟩
  | .ok totalDuration =>
      let numChunks := (Rat.ceil (ratDiv totalDuration chunkDurationSeconds)).toNat
      splitLoop exec ts chunkDurationSeconds 0 numChunks [] disk [] 0

/-- Result of `processAudioChunks`, with instrumentation: combined text,
summed duration, disk state, and the number of transcription API calls
actually made. -/
structure ProcOut where
  text : Str
  duration : ℚ
  disk : Disk
  calls : Nat
deriving DecidableEq, Repr

/-- The per-chunk file name handed to the transcription wrapper
(`routes.ts` line 166): `<originalFileName>_chunk_<i+1>`. -/
def chunkFileName (originalFileName : Str) (i : Nat) : Str :=
  originalFileName ++ ("_chunk_").data ++ natStr (i + 1)

/-- The `for` loop of `processAudioChunks` (`routes.ts` lines 164-193):
transcribe each chunk in order; on success append the trimmed text with a
single-space separator when both the accumulated text and the new trimmed
text are nonempty; on failure append the placeholder
`[Segmento <i+1>: <msg>] ` directly; in both cases delete the chunk file
in the `finally` block before moving on. -/
def processChunksLoop (api : Nat → Except JsError Str) (originalFileName : Str) :
    Nat → List Nat → Str → ℚ → Disk → Nat → ProcOut
  | _, [], text, dur, disk, calls => ⟨text, dur, disk, calls⟩
  | i, c :: rest, text, dur, disk, calls =>
      let present := decide (TempFile.chunk c ∈ disk)
      let calls' := calls + (if present then 1 else 0)
      match transcribeAudio present (api i) (some (chunkFileName originalFileName i)) with
      | .ok r =>
          let text' :=
            (if text ≠ [] ∧ trimStr r.text ≠ [] then text ++ (" ").data else text)
              ++ trimStr r.text
          processChunksLoop api originalFileName (i + 1) rest text'
            (ratAdd dur (r.duration.getD 0)) (rmFile (TempFile.chunk c) disk) calls'
      | .error m =>
          processChunksLoop api originalFileName (i + 1) rest
            (text ++ ("[Segmento ").data ++ natStr (i + 1) ++ (": ").data ++ m
              ++ ("] ").data)
            dur (rmFile (TempFile.chunk c) disk) calls'

/-- Model of `processAudioChunks` (`routes.ts` lines 154-200). -/
def processAudioChunks (api : Nat → Except JsError Str) (originalFileName : Str)
    (chunks : List Nat) (disk : Disk) : ProcOut :=
  processChunksLoop api originalFileName 0 chunks [] 0 disk 0

/-- The outcome of the converter's `ffmpeg` invocation (capability
contract: on failure no output file is produced; on return the output file
may be absent or have any size). -/
inductive ConvOutcome
  | execFail : Str → ConvOutcome
  | execOk : Option Nat → ConvOutcome
deriving DecidableEq, Repr

/-- The conversion error message (`routes.ts` line 74). -/
def convErr (m : Str) : Str := ("Erro ao converter arquivo OPUS: ").data ++ m

/-- Model of `convertOpusToMp3` (`routes.ts` lines 20-76): run `ffmpeg`,
require the output file to exist and be nonempty, delete the input on
success; on any failure delete both the output (if present) and the input
(if present) and throw the conversion error. -/
def convertOpusToMp3 (inputExists : Bool) (o : ConvOutcome) (disk : Disk) :
    Except Str Unit × Disk :=
  if inputExists = false then
    (.error (convErr (("Input file does not exist").data)), disk)
  else
    match o with
    | .execFail m =>
        (.error (convErr m), rmFile TempFile.upload (rmFile TempFile.conv disk))
    | .execOk none =>
        (.error (convErr (("Conversion failed: output file was not created").data)),
         rmFile TempFile.upload (rmFile TempFile.conv disk))
    | .execOk (some size) =>
        if size = 0 then
          (.error (convErr (("Conversion failed: output file is empty").data)),
           rmFile TempFile.upload (rmFile TempFile.conv (addFile TempFile.conv disk)))
        else
          (.ok (), rmFile TempFile.upload (addFile TempFile.conv disk))

/-- The constant `MAX_CHUNK_SIZE_MB` (`routes.ts` line 16). -/
def MAX_CHUNK_SIZE_MB : ℚ := 24

/-- The constant `CHUNK_DURATION_SECONDS` (`routes.ts` line 17). -/
def CHUNK_DURATION_SECONDS : ℚ := 600

/-- One request to the transcribe endpoint together with the behavior of
every external collaborator it may consult: the uploaded file's metadata,
the converter's `ffmpeg` outcome, the two `ffprobe` invocations (route
level and splitter level), the per-index transcoder outcomes, and the
per-call OpenAI outcomes (indexed by chunk position, plus the single-file
call). -/
structure RequestEnv where
  originalname : Str
  size : Nat
  mimeType : Str
  conv : ConvOutcome
  probeRoute : Option ℚ
  probeSplit : Option ℚ
  chunkExec : Nat → ExecOutcome
  chunkApi : Nat → Except JsError Str
  singleApi : Except JsError Str
  ts : Nat

/-- The transcription record persisted by `storage.createTranscription`
(`routes.ts` lines 322-333; `storage.ts`). Wall-clock processing time is
not modelled and stored as 0. -/
structure StoredRecord where
  filename : Str
  originalSize : Nat
  mimeType : Str
  duration : ℚ
  transcriptionText : Str
  wordCount : Nat
  confidence : ℚ
  processingTime : ℚ
deriving DecidableEq, Repr

/-- The HTTP response of the transcribe endpoint: a 200 JSON response
carrying the persisted record and the chunk count, or an error status with
a message. -/
inductive RouteResult
  | ok : StoredRecord → Nat → RouteResult
  | err : Nat → Str → RouteResult
deriving DecidableEq, Repr

/-- The HTTP status code of a route result (`res.json` responds 200). -/
def RouteResult.statusCode : RouteResult → Nat
  | .ok _ _ => 200
  | .err s _ => s

/-- The observable outcome of one request: the response, the final disk
state, and instrumentation (number of transcription API calls made,
transcoder invocations of the splitter, number of chunk files created,
whether the splitting branch ran). -/
structure RouteOut where
  result : RouteResult
  disk : Disk
  apiCalls : Nat
  invocations : List Invocation
  chunksCreated : Nat
  didSplit : Bool
deriving DecidableEq, Repr

/-- Model of `name.toLowerCase().endsWith('.opus')` (`routes.ts` line 269). -/
def isOpusName (name : Str) : Bool := ((".opus").data).isSuffixOf (lowerStr name)

/-- The size criterion `fileSizeMB > MAX_CHUNK_SIZE_MB` where `fileSizeMB = file.size /
(1024 * 1024)` (`routes.ts` lines 281-282). -/
def shouldSplitBySize (sc : RequestEnv) : Bool :=
  decide (MAX_CHUNK_SIZE_MB < ratDiv (natQ sc.size) (natQ (1024 * 1024)))

/-- The duration criterion `audioDuration > CHUNK_DURATION_SECONDS`, left `false` when the probe
fails (`routes.ts` lines 284-293). -/
def shouldSplitByDuration (sc : RequestEnv) : Bool :=
  match getAudioDuration sc.probeRoute with
  | .ok d => decide (CHUNK_DURATION_SECONDS < d)
  | .error _ => false

/-- Model of `name.replace(/\.opus$/i, '.mp3')` (`routes.ts` line 272). -/
def replaceOpus (name : Str) : Str :=
  if isOpusName name then (name.take (name.length - 5)) ++ ((".mp3").data) else name

/-- The word count `transcriptionResult.text.trim().split(/\s+/).filter(word =>
word.length > 0).length` (`routes.ts` line 319). -/
def jsWordCount (text : Str) : Nat :=
  ((splitWsPlus (trimStr text)).filter (fun w => decide (0 < w.length))).length

/-- The inner catch block of the route (`routes.ts` lines 352-368): delete
the uploaded file if present, delete the converted file if the upload was
an OPUS file, respond 500 with the thrown message. -/
def routeCatch (isOpus : Bool) (m : Str) (disk : Disk) (apiCalls : Nat)
    (invs : List Invocation) (created : Nat) (didSplit : Bool) : RouteOut :=
  let d1 := rmFile TempFile.upload disk
  let d2 := if isOpus then rmFile TempFile.conv d1 else d1
  ⟨.err 500 m, d2, apiCalls, invs, created, didSplit⟩

/-- The success tail of the route (`routes.ts` lines 318-350): compute the
word count, persist the record (coalescing a missing duration to 0), delete
the processed file, respond 200. -/
def finishRoute (sc : RequestEnv) (durationOpt : Option ℚ) (text : Str)
    (totalChunks : Nat) (audioFile : TempFile) (disk : Disk) (apiCalls : Nat)
    (invs : List Invocation) (created : Nat) (didSplit : Bool) : RouteOut :=
  let record : StoredRecord :=
    { filename := sc.originalname
      originalSize := sc.size
      mimeType := sc.mimeType
      duration := (match durationOpt with
        | none => 0
        | some d => if d = 0 then 0 else d)
      transcriptionText := text
      wordCount := jsWordCount text
      confidence := Rat.divInt 94 100
      processingTime := 0 }
  ⟨.ok record totalChunks, rmFile audioFile disk, apiCalls, invs, created, didSplit⟩

/-- Model of the `POST /api/transcribe` handler (`routes.ts` lines
234-393) from the point where multer has written the upload to disk:
convert OPUS uploads, decide splitting from the original byte size and the
probed duration (probe failure degrades to the size-only decision), then
either split-and-process chunks or transcribe the single file, persist the
record and clean up; any thrown error lands in the catch block. -/
def transcribeRoute (sc : RequestEnv) : RouteOut :=
  let disk0 : Disk := [TempFile.upload]
  let isOpus := isOpusName sc.originalname
  match (if isOpus then convertOpusToMp3 (decide (TempFile.upload ∈ disk0)) sc.conv disk0
         else (Except.ok (), disk0)) with
  | (.error m, d1) => routeCatch isOpus m d1 0 [] 0 false
  | (.ok _, d1) =>
      let audioFile := if isOpus then TempFile.conv else TempFile.upload
      let audioFileName := if isOpus then replaceOpus sc.originalname else sc.originalname
      if decide (audioFile ∈ d1) = false then
        routeCatch isOpus (("Processed audio file not found").data) d1 0 [] 0 false
      else
        if shouldSplitBySize sc || shouldSplitByDuration sc then
          let so := splitAudioIntoChunks sc.probeSplit sc.chunkExec sc.ts
            CHUNK_DURATION_SECONDS d1
          match so.res with
          | .error m => routeCatch isOpus m so.disk 0 so.invs so.created true
          | .ok chunks =>
              let po := processAudioChunks sc.chunkApi sc.originalname chunks so.disk
              finishRoute sc (some po.duration) po.text chunks.length audioFile po.disk
                po.calls so.invs so.created true
        else
          let calls := if decide (audioFile ∈ d1) then 1 else 0
          match transcribeAudio (decide (audioFile ∈ d1)) sc.singleApi (some audioFileName) with
          | .error m => routeCatch isOpus m d1 calls [] 0 false
          | .ok r => finishRoute sc r.duration r.text 1 audioFile d1 calls [] 0 false

/-! ### Derived notions used in statements -/

/-- Whether the transcoder invocation for index `j` leaves an accepted
(surviving) chunk: the output file exists with size > 1000 bytes. -/
def acceptedAt (exec : Nat → ExecOutcome) (j : Nat) : Bool :=
  match exec j with
  | .ok (some s) => decide (1000 < s)
  | _ => false

/-- Whether the transcoder invocation for index `j` creates an output
file at all. -/
def createdAt (exec : Nat → ExecOutcome) (j : Nat) : Bool :=
  match exec j with
  | .ok (some _) => true
  | _ => false

/-- The number of chunks the splitter computes for a probed duration `D`
and chunk duration `C`: `Math.ceil(D / C)` (`routes.ts` line 99). -/
def numChunksOf (D C : ℚ) : Nat := (Rat.ceil (ratDiv D C)).toNat

/-- One segment outcome of the sequential driver, already rendered: the
trimmed text of a success, or the placeholder text of a failure. -/
inductive SegOutcome
  | success : Str → SegOutcome
  | failure : Str → SegOutcome
deriving DecidableEq, Repr

/-- The outcome of loop position `i` of the driver, when the chunk file is
present on disk: the wrapper's trimmed text re-trimmed, or the rendered
placeholder `[Segmento <i+1>: <msg>] ` (with trailing space, as the code
appends it). -/
def segOutcome (api : Nat → Except JsError Str) (nm : Str) (i : Nat) : SegOutcome :=
  match transcribeAudio true (api i) (some (chunkFileName nm i)) with
  | .ok r => .success (trimStr r.text)
  | .error m =>
      .failure (("[Segmento ").data ++ natStr (i + 1) ++ (": ").data ++ m ++ ("] ").data)

/-- How one rendered segment outcome extends the accumulated transcript:
a success is separated by a single space exactly when both the accumulated
text and the new text are nonempty; a failure placeholder is appended
directly. -/
def joinSegment (acc : Str) : SegOutcome → Str
  | .success t => (if acc ≠ [] ∧ t ≠ [] then acc ++ (" ").data else acc) ++ t
  | .failure p => acc ++ p

/-- Spec-side definition: the non-empty whitespace-delimited tokens of a
text. -/
def tokensOf (s : Str) : List Str :=
  (splitWsPlus s).filter (fun w => decide (w ≠ []))

/-- Spec-side definition: the number of non-empty whitespace-delimited
tokens of a text. -/
def tokenCount (s : Str) : Nat := (tokensOf s).length

/-- Spec-side (claim wording) join: order-preserving concatenation with a
single-space separator, the separator being skipped exactly when the text
accumulated so far is still empty. -/
def claimJoin (pieces : List Str) : Str :=
  pieces.foldl (fun acc p => if acc = [] then acc ++ p else acc ++ (" ").data ++ p) []

/-- Spec-side (claim wording) piece of segment `i`: the trimmed success
text, or a failure placeholder carrying the 1-based segment index and the
error message, with no trailing whitespace. -/
def claimPiece (api : Nat → Except JsError Str) (nm : Str) (i : Nat) : Str :=
  match transcribeAudio true (api i) (some (chunkFileName nm i)) with
  | .ok r => trimStr r.text
  | .error m => ("[Segmento ").data ++ natStr (i + 1) ++ (": ").data ++ m ++ ("]").data

/-- The relation `inOrder ps s` says the pieces `ps` occur in `s`, in order, as
disjoint contiguous substrings. -/
def inOrder : List Str → Str → Prop
  | [], _ => True
  | p :: ps, s => ∃ pre rest, s = pre ++ p ++ rest ∧ inOrder ps rest

/-- The rendered text a segment outcome contributes. -/
def pieceOfOutcome : SegOutcome → Str
  | .success t => t
  | .failure p => p

/-! ### Disk-state lemmas -/

theorem mem_rmFile {f g : TempFile} {d : Disk} :
    f ∈ rmFile g d ↔ f ∈ d ∧ f ≠ g := by
  simp [rmFile, List.mem_filter]

theorem mem_addFile {f g : TempFile} {d : Disk} :
    f ∈ addFile g d ↔ f = g ∨ f ∈ d := by
  unfold addFile
  split
  · constructor
    · exact fun h => Or.inr h
    · rintro (rfl | h) <;> assumption
  · simp [or_comm]

/-- Membership after removing a whole list of chunk files. -/
theorem mem_foldl_rm (cs : List Nat) (d : Disk) (f : TempFile) :
    f ∈ cs.foldl (fun d c => rmFile (TempFile.chunk c) d) d ↔
      f ∈ d ∧ ∀ c ∈ cs, f ≠ TempFile.chunk c := by
  induction cs generalizing d with
  | nil => simp
  | cons c cs ih =>
      simp only [List.foldl_cons, ih, mem_rmFile, List.mem_cons]
      constructor
      · rintro ⟨⟨hd, hne⟩, hall⟩
        exact ⟨hd, by rintro x (rfl | hx); exact hne; exact hall x hx⟩
      · rintro ⟨hd, hall⟩
        exact ⟨⟨hd, hall c (Or.inl rfl)⟩, fun x hx => hall x (Or.inr hx)⟩

/-! ### Characterization of the transcription wrapper -/

/-- A successful wrapper call happens only on an existing file with a
successful API outcome whose trimmed text is nonempty; the result is the
trimmed text with no duration. -/
theorem transcribeAudio_ok {fe : Bool} {api : Except JsError Str} {fn : Option Str}
    {r : TranscriptionResult} (h : transcribeAudio fe api fn = .ok r) :
    fe = true ∧ ∃ t, api = .ok t ∧ trimStr t ≠ [] ∧ r = ⟨trimStr t, none⟩ := by
  cases fe with
  | false => simp [transcribeAudio] at h
  | true =>
      cases api with
      | error e => simp [transcribeAudio] at h
      | ok t =>
          by_cases ht : trimStr t = []
          · simp [transcribeAudio, ht] at h
          · simp [transcribeAudio, ht] at h
            exact ⟨rfl, t, rfl, ht, h.symm⟩

/-- A wrapper call on a missing file fails (with the generic message,
since the internally thrown `Error` has neither `code` nor `status`). -/
theorem transcribeAudio_absent (api : Except JsError Str) (fn : Option Str) :
    transcribeAudio false api fn = .error (mapTranscriptionError {} fn) := by
  simp [transcribeAudio]

/-! ### Lemmas about the sequential chunk driver -/

theorem processChunksLoop_disk (api : Nat → Except JsError Str) (nm : Str)
    (chunks : List Nat) :
    ∀ i text dur disk calls,
      (processChunksLoop api nm i chunks text dur disk calls).disk =
        chunks.foldl (fun d c => rmFile (TempFile.chunk c) d) disk := by
  induction chunks with
  | nil => intro i text dur disk calls; rfl
  | cons c rest ih =>
      intro i text dur disk calls
      simp only [processChunksLoop, List.foldl_cons]
      cases h : transcribeAudio (decide (TempFile.chunk c ∈ disk)) (api i)
          (some (chunkFileName nm i)) with
      | ok r => simpa using ih (i + 1) _ _ _ _
      | error m => simpa using ih (i + 1) _ _ _ _

/-- A successful wrapper result carries no duration, so the summed
duration never moves. -/
theorem processChunksLoop_duration (api : Nat → Except JsError Str) (nm : Str)
    (chunks : List Nat) :
    ∀ i text dur disk calls,
      (processChunksLoop api nm i chunks text dur disk calls).duration = dur := by
  induction chunks with
  | nil => intro i text dur disk calls; rfl
  | cons c rest ih =>
      intro i text dur disk calls
      simp only [processChunksLoop]
      cases h : transcribeAudio (decide (TempFile.chunk c ∈ disk)) (api i)
          (some (chunkFileName nm i)) with
      | ok r =>
          obtain ⟨-, t, -, -, rfl⟩ := transcribeAudio_ok h
          simpa [ratAdd] using ih (i + 1) _ _ _ _
      | error m => simpa using ih (i + 1) _ _ _ _

/-! ### Lemmas about the splitter -/

/-- Disk bookkeeping of the splitting loop: provided the chunk files on
disk are exactly the accepted ones so far (all with index below the loop
counter), non-chunk files are untouched, on success exactly the returned
chunk files are present, and on failure no chunk file is present. -/
theorem splitLoop_disk (exec : Nat → ExecOutcome) (ts : Nat) (C : ℚ) :
    ∀ rem i cs d invs crt,
      (∀ j, TempFile.chunk j ∈ d ↔ j ∈ cs) → (∀ j ∈ cs, j < i) →
      (∀ f, (∀ j, f ≠ TempFile.chunk j) →
          ((f ∈ (splitLoop exec ts C i rem cs d invs crt).disk) ↔ f ∈ d)) ∧
      (∀ l, (splitLoop exec ts C i rem cs d invs crt).res = .ok l →
          ∀ j, TempFile.chunk j ∈ (splitLoop exec ts C i rem cs d invs crt).disk ↔ j ∈ l) ∧
      (∀ m, (splitLoop exec ts C i rem cs d invs crt).res = .error m →
          ∀ j, TempFile.chunk j ∉ (splitLoop exec ts C i rem cs d invs crt).disk) := by
  intro rem
  induction rem with
  | zero =>
      intro i cs d invs crt hinv _
      by_cases hcs : cs = []
      · refine ⟨by simp [splitLoop, hcs], ?_, ?_⟩
        · intro l h
          simp [splitLoop, hcs] at h
        · intro m _ j
          simp [splitLoop, hcs, hinv]
      · refine ⟨by simp [splitLoop, hcs], ?_, ?_⟩
        · intro l h j
          simp only [splitLoop, if_neg hcs] at h ⊢
          cases h
          simpa using hinv j
        · intro m h
          simp [splitLoop, hcs] at h
  | succ rem ih =>
      intro i cs d invs crt hinv hlt
      cases hexec : exec i with
      | fail =>
          refine ⟨?_, ?_, ?_⟩
          · intro f hf
            simp only [splitLoop, hexec, mem_foldl_rm]
            exact ⟨fun h => h.1, fun h => ⟨h, fun c _ => hf c⟩⟩
          · intro l h
            simp [splitLoop, hexec] at h
          · intro m _ j
            simp only [splitLoop, hexec, mem_foldl_rm, hinv]
            rintro ⟨hj, hall⟩
            exact hall j hj rfl
      | ok osize =>
          cases osize with
          | none =>
              have heq : splitLoop exec ts C i (rem + 1) cs d invs crt =
                  splitLoop exec ts C (i + 1) rem cs d
                    (invs ++ [⟨ratMul (natQ i) C, C, chunkName ts i⟩]) crt := by
                simp [splitLoop, hexec]
              rw [heq]
              exact ih (i + 1) cs d _ crt hinv (fun j hj => Nat.lt_succ_of_lt (hlt j hj))
          | some size =>
              by_cases hsz : 1000 < size
              · have heq : splitLoop exec ts C i (rem + 1) cs d invs crt =
                    splitLoop exec ts C (i + 1) rem (cs ++ [i])
                      (addFile (TempFile.chunk i) d)
                      (invs ++ [⟨ratMul (natQ i) C, C, chunkName ts i⟩]) (crt + 1) := by
                  simp [splitLoop, hexec, hsz]
                have hinv' : ∀ j, TempFile.chunk j ∈ addFile (TempFile.chunk i) d ↔
                    j ∈ cs ++ [i] := by
                  intro j
                  simp only [mem_addFile, hinv, List.mem_append, List.mem_singleton,
                    TempFile.chunk.injEq]
                  tauto
                have hlt' : ∀ j ∈ cs ++ [i], j < i + 1 := by
                  intro j hj
                  rcases List.mem_append.1 hj with h | h
                  · exact Nat.lt_succ_of_lt (hlt j h)
                  · simp at h; omega
                have hrec := ih (i + 1) (cs ++ [i]) (addFile (TempFile.chunk i) d)
                  (invs ++ [⟨ratMul (natQ i) C, C, chunkName ts i⟩]) (crt + 1) hinv' hlt'
                rw [heq]
                refine ⟨?_, hrec.2.1, hrec.2.2⟩
                intro f hf
                rw [hrec.1 f hf, mem_addFile]
                constructor
                · rintro (h | h)
                  · exact absurd h (hf i)
                  · exact h
                · exact fun h => Or.inr h
              · have heq : splitLoop exec ts C i (rem + 1) cs d invs crt =
                    splitLoop exec ts C (i + 1) rem cs
                      (rmFile (TempFile.chunk i) (addFile (TempFile.chunk i) d))
                      (invs ++ [⟨ratMul (natQ i) C, C, chunkName ts i⟩]) (crt + 1) := by
                  simp [splitLoop, hexec, hsz]
                have hinv' : ∀ j, TempFile.chunk j ∈
                    rmFile (TempFile.chunk i) (addFile (TempFile.chunk i) d) ↔ j ∈ cs := by
                  intro j
                  simp only [mem_rmFile, mem_addFile, hinv, TempFile.chunk.injEq, ne_eq]
                  constructor
                  · rintro ⟨h | h, hne⟩
                    · exact absurd h (by simpa using hne)
                    · exact h
                  · intro h
                    exact ⟨Or.inr h, by simpa using Nat.ne_of_lt (hlt j h)⟩
                have hrec := ih (i + 1) cs
                  (rmFile (TempFile.chunk i) (addFile (TempFile.chunk i) d))
                  (invs ++ [⟨ratMul (natQ i) C, C, chunkName ts i⟩]) (crt + 1) hinv'
                  (fun j hj => Nat.lt_succ_of_lt (hlt j hj))
                rw [heq]
                refine ⟨?_, hrec.2.1, hrec.2.2⟩
                intro f hf
                rw [hrec.1 f hf, mem_rmFile, mem_addFile]
                constructor
                · rintro ⟨h | h, _⟩
                  · exact absurd h (hf i)
                  · exact h
                · exact fun h => ⟨Or.inr h, hf i⟩

/-- Full-run characterization of the splitting loop when no transcoder
invocation in range throws: the invocations are recorded for every index
in order (start offset `i * C`, duration `C`, timestamped name), the
created count counts the invocations that produced a file, and the result
is the list of accepted indices (failing with the split error if none
survives). -/
theorem splitLoop_run (exec : Nat → ExecOutcome) (ts : Nat) (C : ℚ) :
    ∀ rem i cs d invs crt,
      (∀ j, i ≤ j → j < i + rem → exec j ≠ .fail) →
      (splitLoop exec ts C i rem cs d invs crt).invs =
          invs ++ (List.range' i rem).map
            (fun j => ⟨ratMul (natQ j) C, C, chunkName ts j⟩) ∧
      (splitLoop exec ts C i rem cs d invs crt).created =
          crt + ((List.range' i rem).filter (createdAt exec)).length ∧
      (splitLoop exec ts C i rem cs d invs crt).res =
          (if cs ++ (List.range' i rem).filter (acceptedAt exec) = [] then
            Except.error splitFailMsg
          else Except.ok (cs ++ (List.range' i rem).filter (acceptedAt exec))) := by
  intro rem
  induction rem with
  | zero =>
      intro i cs d invs crt _
      by_cases hcs : cs = [] <;> simp [splitLoop, hcs]
  | succ rem ih =>
      intro i cs d invs crt hnf
      have hnfi : exec i ≠ .fail := hnf i (Nat.le_refl i) (by omega)
      have hnf' : ∀ j, i + 1 ≤ j → j < (i + 1) + rem → exec j ≠ .fail := by
        intro j h1 h2
        exact hnf j (by omega) (by omega)
      cases hexec : exec i with
      | fail => exact absurd hexec hnfi
      | ok osize =>
          have hrange : List.range' i (rem + 1) = i :: List.range' (i + 1) rem :=
            List.range'_succ i rem 1
          cases osize with
          | none =>
              have heq : splitLoop exec ts C i (rem + 1) cs d invs crt =
                  splitLoop exec ts C (i + 1) rem cs d
                    (invs ++ [⟨ratMul (natQ i) C, C, chunkName ts i⟩]) crt := by
                simp [splitLoop, hexec]
              have hacc : acceptedAt exec i = false := by simp [acceptedAt, hexec]
              have hcrt : createdAt exec i = false := by simp [createdAt, hexec]
              rw [heq, hrange]
              have := ih (i + 1) cs d
                (invs ++ [⟨ratMul (natQ i) C, C, chunkName ts i⟩]) crt hnf'
              simpa [hacc, hcrt] using this
          | some size =>
              by_cases hsz : 1000 < size
              · have heq : splitLoop exec ts C i (rem + 1) cs d invs crt =
                    splitLoop exec ts C (i + 1) rem (cs ++ [i])
                      (addFile (TempFile.chunk i) d)
                      (invs ++ [⟨ratMul (natQ i) C, C, chunkName ts i⟩]) (crt + 1) := by
                  simp [splitLoop, hexec, hsz]
                have hacc : acceptedAt exec i = true := by simp [acceptedAt, hexec, hsz]
                have hcrt : createdAt exec i = true := by simp [createdAt, hexec]
                rw [heq, hrange]
                have := ih (i + 1) (cs ++ [i]) (addFile (TempFile.chunk i) d)
                  (invs ++ [⟨ratMul (natQ i) C, C, chunkName ts i⟩]) (crt + 1) hnf'
                refine ⟨by simpa using this.1, ?_, ?_⟩
                · rw [this.2.1]
                  simp [hcrt]
                  omega
                · rw [this.2.2]
                  simp [hacc]
              · have heq : splitLoop exec ts C i (rem + 1) cs d invs crt =
                    splitLoop exec ts C (i + 1) rem cs
                      (rmFile (TempFile.chunk i) (addFile (TempFile.chunk i) d))
                      (invs ++ [⟨ratMul (natQ i) C, C, chunkName ts i⟩]) (crt + 1) := by
                  simp [splitLoop, hexec, hsz]
                have hacc : acceptedAt exec i = false := by simp [acceptedAt, hexec, hsz]
                have hcrt : createdAt exec i = true := by simp [createdAt, hexec]
                rw [heq, hrange]
                have := ih (i + 1) cs
                  (rmFile (TempFile.chunk i) (addFile (TempFile.chunk i) d))
                  (invs ++ [⟨ratMul (natQ i) C, C, chunkName ts i⟩]) (crt + 1) hnf'
                refine ⟨by simpa using this.1, ?_, by simpa [hacc] using this.2.2⟩
                rw [this.2.1]
                simp [hcrt]
                omega

/-- The function `splitAudioIntoChunks` on a successful probe runs the loop from index
0 with `numChunksOf D C` iterations. -/
theorem splitAudioIntoChunks_probe_ok (exec : Nat → ExecOutcome) (ts : Nat)
    (C : ℚ) (d : Disk) (D : ℚ) :
    splitAudioIntoChunks (some D) exec ts C d =
      splitLoop exec ts C 0 (numChunksOf D C) [] d [] 0 := by
  simp [splitAudioIntoChunks, getAudioDuration, numChunksOf]

/-! ### Declarative description of the driver's transcript -/

/-- The driver's transcript is the left fold of the rendered segment
outcomes, in loop order, provided the chunk list has no duplicates and
every chunk file is initially present. -/
theorem processChunksLoop_text (api : Nat → Except JsError Str) (nm : Str) :
    ∀ chunks i text dur disk calls, chunks.Nodup →
      (∀ c ∈ chunks, TempFile.chunk c ∈ disk) →
      (processChunksLoop api nm i chunks text dur disk calls).text =
        ((List.range' i chunks.length).map (segOutcome api nm)).foldl joinSegment text := by
  intro chunks
  induction chunks with
  | nil => intro i text dur disk calls _ _; rfl
  | cons c rest ih =>
      intro i text dur disk calls hnd hmem
      have hpres : decide (TempFile.chunk c ∈ disk) = true := by
        simpa using hmem c (List.mem_cons_self c rest)
      have hrange : List.range' i (rest.length + 1) = i :: List.range' (i + 1) rest.length :=
        List.range'_succ i rest.length 1
      have hmem' : ∀ c' ∈ rest, TempFile.chunk c' ∈ rmFile (TempFile.chunk c) disk := by
        intro c' hc'
        rw [mem_rmFile]
        refine ⟨hmem c' (List.mem_cons_of_mem c hc'), ?_⟩
        intro hcon
        have : c' = c := by simpa using hcon
        exact (List.nodup_cons.1 hnd).1 (this ▸ hc')
      have hnd' : rest.Nodup := (List.nodup_cons.1 hnd).2
      cases h : transcribeAudio true (api i) (some (chunkFileName nm i)) with
      | ok r =>
          simp only [processChunksLoop, hpres, h, List.length_cons, hrange,
            List.map_cons, List.foldl_cons]
          rw [ih (i + 1) _ _ _ _ hnd' hmem']
          simp [joinSegment, segOutcome, h]
      | error m =>
          simp only [processChunksLoop, hpres, h, List.length_cons, hrange,
            List.map_cons, List.foldl_cons]
          rw [ih (i + 1) _ _ _ _ hnd' hmem']
          simp [joinSegment, segOutcome, h]

/-! ### Token counting (spec side) and its agreement with the code -/

theorem splitWsAux_allWs :
    ∀ r : Str, (∀ c ∈ r, wsChar c = true) →
      (splitWsAux r none).filter (fun w => decide (w ≠ [])) = [] ∧
      ∀ acc, (splitWsAux r (some acc)).filter (fun w => decide (w ≠ [])) =
        [acc.reverse].filter (fun w => decide (w ≠ [])) := by
  intro r
  induction r with
  | nil => exact fun _ => ⟨by simp [splitWsAux], fun acc => by simp [splitWsAux]⟩
  | cons c cs ih =>
      intro hall
      have hc : wsChar c = true := hall c (List.mem_cons_self c cs)
      have ih' := ih (fun x hx => hall x (List.mem_cons_of_mem c hx))
      constructor
      · simpa [splitWsAux, hc] using ih'.1
      · intro acc
        simp only [splitWsAux, hc, if_pos]
        rw [List.filter_cons, List.filter_cons, ih'.1]
        cases hne : decide (acc.reverse ≠ []) <;> simp [hne]

theorem splitWsAux_append_allWs :
    ∀ s r : Str, (∀ c ∈ r, wsChar c = true) →
      ((splitWsAux (s ++ r) none).filter (fun w => decide (w ≠ [])) =
        (splitWsAux s none).filter (fun w => decide (w ≠ []))) ∧
      ∀ acc, (splitWsAux (s ++ r) (some acc)).filter (fun w => decide (w ≠ [])) =
        (splitWsAux s (some acc)).filter (fun w => decide (w ≠ [])) := by
  intro s
  induction s with
  | nil =>
      intro r hall
      constructor
      · simpa [splitWsAux] using (splitWsAux_allWs r hall).1
      · intro acc
        simpa [splitWsAux] using (splitWsAux_allWs r hall).2 acc
  | cons c cs ih =>
      intro r hall
      constructor
      · by_cases hc : wsChar c = true
        · simpa [splitWsAux, hc] using (ih r hall).1
        · simpa [splitWsAux, hc] using (ih r hall).2 [c]
      · intro acc
        by_cases hc : wsChar c = true
        · simp only [List.cons_append, splitWsAux, hc, if_pos, List.append_eq]
          rw [List.filter_cons, List.filter_cons, (ih r hall).1]
        · simpa [splitWsAux, hc] using (ih r hall).2 (c :: acc)

/-- Skipping-mode tokens coincide with the tokens after dropping the
leading whitespace run. -/
theorem splitWsAux_none_eq :
    ∀ s : Str, (splitWsAux s none).filter (fun w => decide (w ≠ [])) =
      tokensOf (s.dropWhile wsChar) := by
  intro s
  induction s with
  | nil => simp [splitWsAux, tokensOf, splitWsPlus]
  | cons c cs ih =>
      by_cases hc : wsChar c = true
      · simpa [splitWsAux, hc, List.dropWhile_cons] using ih
      · simp [splitWsAux, hc, List.dropWhile_cons, tokensOf, splitWsPlus]

/-- Dropping leading whitespace does not change the token list. -/
theorem tokensOf_dropWhile (s : Str) :
    tokensOf (s.dropWhile wsChar) = tokensOf s := by
  cases s with
  | nil => rfl
  | cons c cs =>
      by_cases hc : wsChar c = true
      · rw [List.dropWhile_cons, if_pos hc]
        rw [← splitWsAux_none_eq cs]
        simp [tokensOf, splitWsPlus, splitWsAux, hc, List.filter_cons]
      · rw [List.dropWhile_cons, if_neg hc]

/-- The leading-whitespace-dropped text is the trimmed text followed by a
whitespace run. -/
theorem trim_decomp (s : Str) :
    ∃ r, s.dropWhile wsChar = trimStr s ++ r ∧ ∀ c ∈ r, wsChar c = true := by
  refine ⟨((s.dropWhile wsChar).reverse.takeWhile wsChar).reverse, ?_, ?_⟩
  · conv_lhs => rw [← List.reverse_reverse (s.dropWhile wsChar),
      ← List.takeWhile_append_dropWhile (p := wsChar) (l := (s.dropWhile wsChar).reverse)]
    rw [List.reverse_append]
    rfl
  · intro c hc
    rw [List.mem_reverse] at hc
    exact List.mem_takeWhile_imp hc

/-- The word count computed by the route (trim, split on whitespace runs,
keep sizes > 0) equals the spec-side token count of the untrimmed text. -/
theorem jsWordCount_eq_tokenCount (s : Str) : jsWordCount s = tokenCount s := by
  have hfil : (splitWsPlus (trimStr s)).filter (fun w => decide (0 < w.length)) =
      (splitWsPlus (trimStr s)).filter (fun w => decide (w ≠ [])) := by
    apply List.filter_congr
    intro w _
    cases w <;> simp
  obtain ⟨r, hr, hall⟩ := trim_decomp s
  have h1 : tokensOf (trimStr s ++ r) = tokensOf (trimStr s) :=
    (splitWsAux_append_allWs (trimStr s) r hall).2 []
  have h2 : tokensOf (trimStr s) = tokensOf s := by
    rw [← h1, ← hr, tokensOf_dropWhile]
  unfold jsWordCount tokenCount
  rw [hfil]
  exact congrArg List.length h2

/-! ### Injectivity of the decimal rendering and of chunk names -/

theorem natDigitsAux_eq_digits : ∀ fuel n, n ≤ fuel → natDigitsAux fuel n = Nat.digits 10 n := by
  intro fuel
  induction fuel with
  | zero =>
      intro n hn
      interval_cases n
      simp [natDigitsAux]
  | succ fuel ih =>
      intro n hn
      cases n with
      | zero => simp [natDigitsAux]
      | succ m =>
          rw [Nat.digits_def' (b := 10) (by norm_num) (Nat.succ_pos m)]
          simp only [natDigitsAux]
          congr 1
          exact ih ((m + 1) / 10) (by
            have : (m + 1) / 10 < m + 1 := Nat.div_lt_self (Nat.succ_pos m) (by norm_num)
            omega)

theorem digitChar_inj : ∀ x < 10, ∀ y < 10, Nat.digitChar x = Nat.digitChar y → x = y := by
  decide

theorem map_digitChar_inj :
    ∀ l1 l2 : List Nat, (∀ x ∈ l1, x < 10) → (∀ x ∈ l2, x < 10) →
      l1.map Nat.digitChar = l2.map Nat.digitChar → l1 = l2 := by
  intro l1
  induction l1 with
  | nil =>
      intro l2 _ _ h
      cases l2 with
      | nil => rfl
      | cons y ys => simp at h
  | cons x xs ih =>
      intro l2 h1 h2 h
      cases l2 with
      | nil => simp at h
      | cons y ys =>
          simp only [List.map_cons, List.cons.injEq] at h
          have hx : x = y := digitChar_inj x (h1 x (List.mem_cons_self x xs))
            y (h2 y (List.mem_cons_self y ys)) h.1
          rw [hx, ih ys (fun a ha => h1 a (List.mem_cons_of_mem x ha))
            (fun a ha => h2 a (List.mem_cons_of_mem y ha)) h.2]

/-- The decimal rendering is injective. -/
theorem natStr_inj : ∀ a b : Nat, natStr a = natStr b → a = b := by
  have hdig : ∀ n : Nat, n ≠ 0 → natStr n = ((Nat.digits 10 n).map Nat.digitChar).reverse := by
    intro n hn
    unfold natStr
    rw [if_neg hn, natDigitsAux_eq_digits n n (Nat.le_refl n)]
  have hzero : ∀ n : Nat, n ≠ 0 → natStr n ≠ ['0'] := by
    intro n hn hcon
    rw [hdig n hn] at hcon
    have hmap : (Nat.digits 10 n).map Nat.digitChar = ['0'] := by
      have := congrArg List.reverse hcon
      simpa using this
    rcases hd : Nat.digits 10 n with _ | ⟨d, ds⟩
    · exact (Nat.digits_ne_nil_iff_ne_zero.2 hn) hd
    · rw [hd] at hmap
      cases ds with
      | cons e es => simp at hmap
      | nil =>
          simp only [List.map_cons, List.map_nil, List.cons.injEq, and_true] at hmap
          have hd10 : d < 10 := Nat.digits_lt_base (by norm_num) (hd ▸ List.mem_cons_self d [])
          have hd0 : d = 0 := digitChar_inj d hd10 0 (by norm_num) (by simpa using hmap)
          have hofd := Nat.ofDigits_digits 10 n
          rw [hd, hd0] at hofd
          simp [Nat.ofDigits] at hofd
          omega
  intro a b hab
  by_cases ha : a = 0 <;> by_cases hb : b = 0
  · omega
  · exfalso
    exact hzero b hb (by rw [← hab, ha]; rfl)
  · exfalso
    exact hzero a ha (by rw [hab, hb]; rfl)
  · rw [hdig a ha, hdig b hb] at hab
    have h1 := congrArg List.reverse hab
    simp only [List.reverse_reverse] at h1
    have h2 := map_digitChar_inj (Nat.digits 10 a) (Nat.digits 10 b)
      (fun x hx => Nat.digits_lt_base (by norm_num) hx)
      (fun x hx => Nat.digits_lt_base (by norm_num) hx) h1
    calc a = Nat.ofDigits 10 (Nat.digits 10 a) := (Nat.ofDigits_digits 10 a).symm
    _ = Nat.ofDigits 10 (Nat.digits 10 b) := by rw [h2]
    _ = b := Nat.ofDigits_digits 10 b

/-- Chunk file names are unique across indices (for a fixed timestamp). -/
theorem chunkName_inj (ts : Nat) : Function.Injective (chunkName ts) := by
  intro i j h
  unfold chunkName at h
  simp only [List.append_assoc] at h
  have h1 := List.append_cancel_left h
  have h2 := List.append_cancel_left h1
  have h3 := List.append_cancel_left h2
  have h4 := List.append_cancel_right h3
  have := natStr_inj (i + 1) (j + 1) h4
  omega

/-! ### Route-branch evaluation lemmas -/

/-- Evaluation of the route on a non-OPUS upload: no conversion happens,
the processed file is the upload itself. -/
theorem transcribeRoute_nonopus (sc : RequestEnv)
    (hop : isOpusName sc.originalname = false) :
    transcribeRoute sc =
      if shouldSplitBySize sc || shouldSplitByDuration sc then
        (let so := splitAudioIntoChunks sc.probeSplit sc.chunkExec sc.ts
            CHUNK_DURATION_SECONDS [TempFile.upload]
         match so.res with
         | .error m => routeCatch false m so.disk 0 so.invs so.created true
         | .ok chunks =>
             let po := processAudioChunks sc.chunkApi sc.originalname chunks so.disk
             finishRoute sc (some po.duration) po.text chunks.length TempFile.upload
               po.disk po.calls so.invs so.created true)
      else
        match transcribeAudio true sc.singleApi (some sc.originalname) with
        | .error m => routeCatch false m [TempFile.upload] 1 [] 0 false
        | .ok r => finishRoute sc r.duration r.text 1 TempFile.upload
            [TempFile.upload] 1 [] 0 false := by
  unfold transcribeRoute
  simp only [hop, Bool.false_eq_true, if_neg, ite_false]
  norm_num

/-- Evaluation of the route on an OPUS upload whose conversion succeeds:
the upload is replaced by the converted file. -/
theorem transcribeRoute_opus_ok (sc : RequestEnv) (size : Nat)
    (hop : isOpusName sc.originalname = true)
    (hconv : sc.conv = .execOk (some size)) (hsz : size ≠ 0) :
    transcribeRoute sc =
      if shouldSplitBySize sc || shouldSplitByDuration sc then
        (let so := splitAudioIntoChunks sc.probeSplit sc.chunkExec sc.ts
            CHUNK_DURATION_SECONDS [TempFile.conv]
         match so.res with
         | .error m => routeCatch true m so.disk 0 so.invs so.created true
         | .ok chunks =>
             let po := processAudioChunks sc.chunkApi sc.originalname chunks so.disk
             finishRoute sc (some po.duration) po.text chunks.length TempFile.conv
               po.disk po.calls so.invs so.created true)
      else
        match transcribeAudio true sc.singleApi (some (replaceOpus sc.originalname)) with
        | .error m => routeCatch true m [TempFile.conv] 1 [] 0 false
        | .ok r => finishRoute sc r.duration r.text 1 TempFile.conv
            [TempFile.conv] 1 [] 0 false := by
  unfold transcribeRoute
  simp only [hop, hconv, if_pos, ite_true]
  have : convertOpusToMp3 (decide (TempFile.upload ∈ ([TempFile.upload] : Disk)))
      (ConvOutcome.execOk (some size)) [TempFile.upload] =
      (Except.ok (), [TempFile.conv]) := by
    simp [convertOpusToMp3, hsz, addFile, rmFile]
  rw [this]
  norm_num

/-- Disk bookkeeping of `splitAudioIntoChunks` when no chunk file of this
request exists beforehand. -/
theorem splitAudioIntoChunks_disk (probe : Option ℚ) (exec : Nat → ExecOutcome)
    (ts : Nat) (C : ℚ) (d : Disk) (hd : ∀ j, TempFile.chunk j ∉ d) :
    (∀ f, (∀ j, f ≠ TempFile.chunk j) →
        ((f ∈ (splitAudioIntoChunks probe exec ts C d).disk) ↔ f ∈ d)) ∧
    (∀ l, (splitAudioIntoChunks probe exec ts C d).res = .ok l →
        ∀ j, TempFile.chunk j ∈ (splitAudioIntoChunks probe exec ts C d).disk ↔ j ∈ l) ∧
    (∀ m, (splitAudioIntoChunks probe exec ts C d).res = .error m →
        ∀ j, TempFile.chunk j ∉ (splitAudioIntoChunks probe exec ts C d).disk) := by
  cases probe with
  | none =>
      refine ⟨fun f _ => by simp [splitAudioIntoChunks, getAudioDuration], ?_, ?_⟩
      · intro l h
        simp [splitAudioIntoChunks, getAudioDuration] at h
      · intro m _ j
        simpa [splitAudioIntoChunks, getAudioDuration] using hd j
  | some D =>
      rw [splitAudioIntoChunks_probe_ok]
      exact splitLoop_disk exec ts C (numChunksOf D C) 0 [] d [] 0
        (fun j => by simpa using hd j) (by simp)

/-- After the chunked branch (split, then sequential processing), the only
temporary file that can remain is the processed base file. -/
theorem chunked_branch_disk (chApi : Nat → Except JsError Str) (nm : Str)
    (probe : Option ℚ) (exec : Nat → ExecOutcome) (ts : Nat) (C : ℚ)
    (base : TempFile) (hb : ∀ j, base ≠ TempFile.chunk j) :
    (∀ m, (splitAudioIntoChunks probe exec ts C [base]).res = .error m →
        ∀ f, f ∈ (splitAudioIntoChunks probe exec ts C [base]).disk → f = base) ∧
    (∀ chunks, (splitAudioIntoChunks probe exec ts C [base]).res = .ok chunks →
        ∀ f, f ∈ (processAudioChunks chApi nm chunks
            (splitAudioIntoChunks probe exec ts C [base]).disk).disk → f = base) := by
  have hd : ∀ j, TempFile.chunk j ∉ ([base] : Disk) := by
    intro j hj
    have : TempFile.chunk j = base := by simpa using hj
    exact hb j this.symm
  obtain ⟨hpres, hok, herr⟩ := splitAudioIntoChunks_disk probe exec ts C [base] hd
  constructor
  · intro m hm f hf
    cases f with
    | upload =>
        have := (hpres TempFile.upload (by intro j h; cases h)).1 hf
        simpa using this
    | conv =>
        have := (hpres TempFile.conv (by intro j h; cases h)).1 hf
        simpa using this
    | chunk j => exact absurd hf (herr m hm j)
  · intro chunks hchunks f hf
    rw [processAudioChunks, processChunksLoop_disk, mem_foldl_rm] at hf
    cases f with
    | upload =>
        have := (hpres TempFile.upload (by intro j h; cases h)).1 hf.1
        simpa using this
    | conv =>
        have := (hpres TempFile.conv (by intro j h; cases h)).1 hf.1
        simpa using this
    | chunk j =>
        have hj : j ∈ chunks := ((hok chunks hchunks j).1 hf.1)
        exact absurd rfl (hf.2 j hj)

/-- C1: on every request, whatever branch it takes (single-file success,
chunked success with some failed segments, conversion failure, splitting
failure, or whole-request transcription failure), every temporary file
created during the request (upload, converted intermediate, chunk files)
has been deleted by the time the response is sent; moreover each chunk
file is deleted immediately after its own transcription attempt, before
the next chunk is processed. -/
theorem c1_temp_cleanup :
    (∀ sc : RequestEnv, (transcribeRoute sc).disk = []) ∧
    (∀ (api : Nat → Except JsError Str) (nm : Str) (i c : Nat) (rest : List Nat)
        (text : Str) (dur : ℚ) (disk : Disk) (calls : Nat),
      ∃ text' dur' calls',
        processChunksLoop api nm i (c :: rest) text dur disk calls =
          processChunksLoop api nm (i + 1) rest text' dur'
            (rmFile (TempFile.chunk c) disk) calls') := by
  constructor
  · intro sc
    have main : ∀ (isOp : Bool) (base : TempFile),
        ((isOp = false ∧ base = TempFile.upload) ∨ (isOp = true ∧ base = TempFile.conv)) →
        (if shouldSplitBySize sc || shouldSplitByDuration sc then
          (let so := splitAudioIntoChunks sc.probeSplit sc.chunkExec sc.ts
              CHUNK_DURATION_SECONDS [base]
           match so.res with
           | .error m => routeCatch isOp m so.disk 0 so.invs so.created true
           | .ok chunks =>
               let po := processAudioChunks sc.chunkApi sc.originalname chunks so.disk
               finishRoute sc (some po.duration) po.text chunks.length base
                 po.disk po.calls so.invs so.created true)
        else
          match transcribeAudio true sc.singleApi
              (some (if isOp then replaceOpus sc.originalname else sc.originalname)) with
          | .error m => routeCatch isOp m [base] 1 [] 0 false
          | .ok r => finishRoute sc r.duration r.text 1 base
              [base] 1 [] 0 false).disk = [] := by
      intro isOp base hcase
      have hb : ∀ j, base ≠ TempFile.chunk j := by
        rcases hcase with ⟨-, rfl⟩ | ⟨-, rfl⟩ <;> intro j h <;> cases h
      obtain ⟨herr, hok⟩ := chunked_branch_disk sc.chunkApi sc.originalname
        sc.probeSplit sc.chunkExec sc.ts CHUNK_DURATION_SECONDS base hb
      have hclean : ∀ d : Disk, (∀ f, f ∈ d → f = base) →
          (if isOp then rmFile TempFile.conv (rmFile TempFile.upload d)
           else rmFile TempFile.upload d) = [] := by
        intro d hdf
        rcases hcase with ⟨hisOp, hbase⟩ | ⟨hisOp, hbase⟩ <;> subst hisOp <;> subst hbase
        · simp only [if_neg Bool.false_ne_true]
          rw [List.eq_nil_iff_forall_not_mem]
          intro f hf
          rw [mem_rmFile] at hf
          exact hf.2 (hdf f hf.1)
        · rw [if_pos rfl, List.eq_nil_iff_forall_not_mem]
          intro f hf
          rw [mem_rmFile, mem_rmFile] at hf
          exact hf.2 (hdf f hf.1.1)
      by_cases hsp : (shouldSplitBySize sc || shouldSplitByDuration sc) = true
      · simp only [hsp, if_pos]
        cases hres : (splitAudioIntoChunks sc.probeSplit sc.chunkExec sc.ts
            CHUNK_DURATION_SECONDS [base]).res with
        | error m =>
            simp only [hres, routeCatch]
            exact hclean _ (herr m hres)
        | ok chunks =>
            simp only [hres, finishRoute]
            rw [List.eq_nil_iff_forall_not_mem]
            intro f hf
            rw [mem_rmFile] at hf
            exact hf.2 (hok chunks hres f hf.1)
      · simp only [Bool.not_eq_true] at hsp
        simp only [hsp, Bool.false_eq_true, if_neg, ite_false]
        cases htr : transcribeAudio true sc.singleApi
            (some (if isOp then replaceOpus sc.originalname else sc.originalname)) with
        | error m =>
            simp only [routeCatch]
            exact hclean [base] (by
              intro f hf
              simpa using hf)
        | ok r =>
            simp only [finishRoute]
            rw [List.eq_nil_iff_forall_not_mem]
            intro f hf
            rw [mem_rmFile] at hf
            have : f = base := by
              have := hf.1
              simpa using this
            exact hf.2 this
    cases hop : isOpusName sc.originalname with
    | false =>
        rw [transcribeRoute_nonopus sc hop]
        exact main false TempFile.upload (Or.inl ⟨rfl, rfl⟩)
    | true =>
        cases hconv : sc.conv with
        | execFail m =>
            simp [transcribeRoute, hop, hconv, convertOpusToMp3, routeCatch, rmFile]
        | execOk osize =>
            cases osize with
            | none =>
                simp [transcribeRoute, hop, hconv, convertOpusToMp3, routeCatch, rmFile]
            | some size =>
                cases size with
                | zero =>
                    simp [transcribeRoute, hop, hconv, convertOpusToMp3, routeCatch,
                      rmFile, addFile]
                | succ s =>
                    rw [transcribeRoute_opus_ok sc (s + 1) hop hconv (Nat.succ_ne_zero s)]
                    exact main true TempFile.conv (Or.inr ⟨rfl, rfl⟩)
  · intro api nm i c rest text dur disk calls
    cases h : transcribeAudio (decide (TempFile.chunk c ∈ disk)) (api i)
        (some (chunkFileName nm i)) with
    | ok r =>
        refine ⟨(if text ≠ [] ∧ trimStr r.text ≠ [] then text ++ (" ").data else text)
          ++ trimStr r.text, ratAdd dur (r.duration.getD 0),
          calls + (if decide (TempFile.chunk c ∈ disk) then 1 else 0), ?_⟩
        simp only [processChunksLoop, h]
    | error m =>
        refine ⟨text ++ ("[Segmento ").data ++ natStr (i + 1) ++ (": ").data ++ m
          ++ ("] ").data, dur,
          calls + (if decide (TempFile.chunk c ∈ disk) then 1 else 0), ?_⟩
        simp only [processChunksLoop, h]

/-! ### Claim C2: the claimed join versus the code's join -/

/-- C2, counterexample: with two chunks where the first transcribes to
"ola" and the second fails with HTTP 413, the driver's transcript is
"ola[Segmento 2: …] " (no space before the placeholder, a trailing space
after it), which differs from the claimed single-space join
"ola [Segmento 2: …]". -/
theorem c2_counterexample :
    (processAudioChunks
        (fun i => if i = 0 then .ok (("ola").data) else .error {status := some 413})
        (("a.mp3").data) [0, 1] [TempFile.chunk 0, TempFile.chunk 1]).text ≠
      claimJoin ((List.range 2).map (claimPiece
        (fun i => if i = 0 then .ok (("ola").data) else .error {status := some 413})
        (("a.mp3").data))) := by
  decide

/-- C2, amended: the transcript is the order-preserving left fold of the
rendered segment outcomes where a success contributes its trimmed text
preceded by a single space exactly when both the accumulated text and the
new text are nonempty, and a failure contributes the placeholder
`[Segmento <i+1>: <msg>] ` appended directly, with no preceding separator
and with a trailing space. -/
theorem c2_amended_join (api : Nat → Except JsError Str) (nm : Str)
    (chunks : List Nat) (disk : Disk) (hnd : chunks.Nodup)
    (hmem : ∀ c ∈ chunks, TempFile.chunk c ∈ disk) :
    (processAudioChunks api nm chunks disk).text =
      ((List.range chunks.length).map (segOutcome api nm)).foldl joinSegment [] := by
  rw [processAudioChunks, processChunksLoop_text api nm chunks 0 [] 0 disk 0 hnd hmem,
    List.range_eq_range']

/-- Witness for the amended C2 on a concrete two-chunk run. -/
theorem c2_amended_join_witness :
    (processAudioChunks
        (fun i => if i = 0 then .ok (("ola").data) else .error {status := some 413})
        (("a.mp3").data) [0, 1] [TempFile.chunk 0, TempFile.chunk 1]).text =
      ((List.range 2).map (segOutcome
        (fun i => if i = 0 then .ok (("ola").data) else .error {status := some 413})
        (("a.mp3").data))).foldl joinSegment [] :=
  c2_amended_join
    (fun i => if i = 0 then .ok (("ola").data) else .error {status := some 413})
    (("a.mp3").data) [0, 1] [TempFile.chunk 0, TempFile.chunk 1]
    (by decide) (by decide)

/-! ### In-order containment of pieces -/

theorem inOrder_append_left : ∀ (ps : List Str) (x s : Str),
    inOrder ps s → inOrder ps (x ++ s) := by
  intro ps
  cases ps with
  | nil => intro x s _; trivial
  | cons p ps =>
      intro x s h
      obtain ⟨pre, rest, rfl, hrest⟩ := h
      exact ⟨x ++ pre, rest, by simp, hrest⟩

/-- Weakening: replacing each piece by one of its prefixes keeps the
in-order containment. -/
theorem inOrder_mono : ∀ (ps qs : List Str) (s : Str),
    List.Forall₂ (fun p q => ∃ tl, p = q ++ tl) ps qs → inOrder ps s → inOrder qs s := by
  intro ps
  induction ps with
  | nil =>
      intro qs s h _
      cases h
      trivial
  | cons p ps ih =>
      intro qs s h hord
      cases h with
      | cons hpq hrest =>
          obtain ⟨pre, rest, rfl, hord'⟩ := hord
          obtain ⟨tl, rfl⟩ := hpq
          rename_i q qs'
          refine ⟨pre, tl ++ rest, by simp, ?_⟩
          exact inOrder_append_left qs' tl rest (ih qs' rest hrest hord')

/-- The fold of rendered segment outcomes contains each outcome's piece,
in order. -/
theorem foldl_joinSegment_decomp : ∀ (os : List SegOutcome) (acc : Str),
    ∃ suffix, os.foldl joinSegment acc = acc ++ suffix ∧
      inOrder (os.map pieceOfOutcome) suffix := by
  intro os
  induction os with
  | nil => exact fun acc => ⟨[], by simp, trivial⟩
  | cons o os ih =>
      intro acc
      obtain ⟨s', hs', hord⟩ := ih (joinSegment acc o)
      cases o with
      | success t =>
          by_cases hc : acc ≠ [] ∧ t ≠ []
          · refine ⟨(" ").data ++ t ++ s', ?_, ?_⟩
            · rw [List.foldl_cons, hs']
              simp [joinSegment, hc]
            · exact ⟨(" ").data, s', by simp [pieceOfOutcome], hord⟩
          · refine ⟨t ++ s', ?_, ?_⟩
            · rw [List.foldl_cons, hs']
              simp [joinSegment, hc]
            · exact ⟨[], s', by simp [pieceOfOutcome], hord⟩
      | failure p =>
          refine ⟨p ++ s', ?_, ?_⟩
          · rw [List.foldl_cons, hs']
            simp [joinSegment]
          · exact ⟨[], s', by simp [pieceOfOutcome], hord⟩

/-- Pointwise relations between two maps over the same list give a
`Forall₂`. -/
theorem forall₂_map_same {α β : Type} {R : β → β → Prop} (l : List α) (f g : α → β)
    (h : ∀ x ∈ l, R (f x) (g x)) : List.Forall₂ R (l.map f) (l.map g) := by
  induction l with
  | nil => exact List.Forall₂.nil
  | cons x xs ih =>
      exact List.Forall₂.cons (h x (List.mem_cons_self x xs))
        (ih (fun y hy => h y (List.mem_cons_of_mem x hy)))

/-! ### Corollaries for the route branches and claim C3 -/

theorem transcribeAudio_apiErr (e : JsError) (fn : Option Str) :
    transcribeAudio true (.error e) fn = .error (mapTranscriptionError e fn) := by
  simp [transcribeAudio]

theorem transcribeAudio_apiOk (t : Str) (fn : Option Str) (ht : trimStr t ≠ []) :
    transcribeAudio true (.ok t) fn = .ok ⟨trimStr t, none⟩ := by
  simp [transcribeAudio, ht]

/-- When every transcoder invocation below `N` yields an accepted chunk,
the splitter returns exactly the index list `0, …, N-1`. -/
theorem splitAudioIntoChunks_all_accepted (D : ℚ) (exec : Nat → ExecOutcome)
    (ts : Nat) (C : ℚ) (d : Disk) (N : Nat)
    (hN : numChunksOf D C = N) (hNpos : N ≠ 0)
    (hexec : ∀ i < N, ∃ s, exec i = .ok (some s) ∧ 1000 < s) :
    (splitAudioIntoChunks (some D) exec ts C d).res = .ok (List.range N) := by
  have hnf : ∀ j, 0 ≤ j → j < 0 + N → exec j ≠ .fail := by
    intro j _ hj hcon
    obtain ⟨s, hs, -⟩ := hexec j (by omega)
    rw [hcon] at hs
    cases hs
  rw [splitAudioIntoChunks_probe_ok, hN]
  have hrun := (splitLoop_run exec ts C N 0 [] d [] 0 hnf).2.2
  have hfil : (List.range' 0 N).filter (acceptedAt exec) = List.range' 0 N := by
    apply List.filter_eq_self.2
    intro j hj
    have hjN : j < N := by
      have := List.mem_range'_1.1 hj
      omega
    obtain ⟨s, hs, hbig⟩ := hexec j hjN
    simp [acceptedAt, hs, hbig]
  rw [hfil] at hrun
  have hne : ([] : List Nat) ++ List.range' 0 N ≠ [] := by
    simp
    omega
  rw [hrun, if_neg hne]
  rw [← List.range_eq_range']
  simp

/-- Route evaluation: non-OPUS upload, splitting branch, split succeeded. -/
theorem transcribeRoute_split_ok (sc : RequestEnv)
    (hop : isOpusName sc.originalname = false)
    (hsp : (shouldSplitBySize sc || shouldSplitByDuration sc) = true)
    (chunks : List Nat)
    (hres : (splitAudioIntoChunks sc.probeSplit sc.chunkExec sc.ts
        CHUNK_DURATION_SECONDS [TempFile.upload]).res = .ok chunks) :
    transcribeRoute sc =
      finishRoute sc
        (some (processAudioChunks sc.chunkApi sc.originalname chunks
          (splitAudioIntoChunks sc.probeSplit sc.chunkExec sc.ts
            CHUNK_DURATION_SECONDS [TempFile.upload]).disk).duration)
        (processAudioChunks sc.chunkApi sc.originalname chunks
          (splitAudioIntoChunks sc.probeSplit sc.chunkExec sc.ts
            CHUNK_DURATION_SECONDS [TempFile.upload]).disk).text
        chunks.length TempFile.upload
        (processAudioChunks sc.chunkApi sc.originalname chunks
          (splitAudioIntoChunks sc.probeSplit sc.chunkExec sc.ts
            CHUNK_DURATION_SECONDS [TempFile.upload]).disk).disk
        (processAudioChunks sc.chunkApi sc.originalname chunks
          (splitAudioIntoChunks sc.probeSplit sc.chunkExec sc.ts
            CHUNK_DURATION_SECONDS [TempFile.upload]).disk).calls
        (splitAudioIntoChunks sc.probeSplit sc.chunkExec sc.ts
          CHUNK_DURATION_SECONDS [TempFile.upload]).invs
        (splitAudioIntoChunks sc.probeSplit sc.chunkExec sc.ts
          CHUNK_DURATION_SECONDS [TempFile.upload]).created
        true := by
  rw [transcribeRoute_nonopus sc hop, if_pos hsp]
  simp only [hres]

/-- Route evaluation: non-OPUS upload, splitting branch, split failed. -/
theorem transcribeRoute_split_err (sc : RequestEnv)
    (hop : isOpusName sc.originalname = false)
    (hsp : (shouldSplitBySize sc || shouldSplitByDuration sc) = true)
    (m : Str)
    (hres : (splitAudioIntoChunks sc.probeSplit sc.chunkExec sc.ts
        CHUNK_DURATION_SECONDS [TempFile.upload]).res = .error m) :
    transcribeRoute sc =
      routeCatch false m
        (splitAudioIntoChunks sc.probeSplit sc.chunkExec sc.ts
          CHUNK_DURATION_SECONDS [TempFile.upload]).disk 0
        (splitAudioIntoChunks sc.probeSplit sc.chunkExec sc.ts
          CHUNK_DURATION_SECONDS [TempFile.upload]).invs
        (splitAudioIntoChunks sc.probeSplit sc.chunkExec sc.ts
          CHUNK_DURATION_SECONDS [TempFile.upload]).created
        true := by
  rw [transcribeRoute_nonopus sc hop, if_pos hsp]
  simp only [hres]

/-- Route evaluation: non-OPUS upload, single-file branch. -/
theorem transcribeRoute_single (sc : RequestEnv)
    (hop : isOpusName sc.originalname = false)
    (hsp : (shouldSplitBySize sc || shouldSplitByDuration sc) = false) :
    transcribeRoute sc =
      match transcribeAudio true sc.singleApi (some sc.originalname) with
      | .error m => routeCatch false m [TempFile.upload] 1 [] 0 false
      | .ok r => finishRoute sc r.duration r.text 1 TempFile.upload
          [TempFile.upload] 1 [] 0 false := by
  rw [transcribeRoute_nonopus sc hop, if_neg (by simp [hsp])]

/-- C3: if the external call for segment `k` fails while every other
segment succeeds, the run is not aborted: the response is HTTP 200 with a
persisted record whose transcript contains, in order, the text of every
other segment and a placeholder naming segment `k+1` and the mapped error
message, and the chunk count is still `N`. -/
theorem c3_segment_failure_isolated (sc : RequestEnv) (D : ℚ) (k N : Nat)
    (t : Nat → Str) (e : JsError)
    (hop : isOpusName sc.originalname = false)
    (hprobe : sc.probeSplit = some D)
    (hN : numChunksOf D CHUNK_DURATION_SECONDS = N) (hNpos : N ≠ 0)
    (hsp : (shouldSplitBySize sc || shouldSplitByDuration sc) = true)
    (hexec : ∀ i < N, ∃ s, sc.chunkExec i = .ok (some s) ∧ 1000 < s)
    (hk : k < N)
    (hfail : sc.chunkApi k = .error e)
    (hothers : ∀ j < N, j ≠ k →
        sc.chunkApi j = .ok (t j) ∧ trimStr (t j) = t j ∧ t j ≠ []) :
    ∃ rec : StoredRecord,
      (transcribeRoute sc).result = .ok rec N ∧
      (transcribeRoute sc).result.statusCode = 200 ∧
      inOrder ((List.range N).map (fun j =>
        if j = k then
          ("[Segmento ").data ++ natStr (k + 1) ++ (": ").data ++
            mapTranscriptionError e (some (chunkFileName sc.originalname k)) ++ ("]").data
        else t j)) rec.transcriptionText := by
  have hres : (splitAudioIntoChunks sc.probeSplit sc.chunkExec sc.ts
      CHUNK_DURATION_SECONDS [TempFile.upload]).res = .ok (List.range N) := by
    rw [hprobe]
    exact splitAudioIntoChunks_all_accepted D sc.chunkExec sc.ts
      CHUNK_DURATION_SECONDS [TempFile.upload] N hN hNpos hexec
  have hdisk := splitAudioIntoChunks_disk sc.probeSplit sc.chunkExec sc.ts
    CHUNK_DURATION_SECONDS [TempFile.upload] (by simp)
  have hmem : ∀ c ∈ List.range N, TempFile.chunk c ∈
      (splitAudioIntoChunks sc.probeSplit sc.chunkExec sc.ts
        CHUNK_DURATION_SECONDS [TempFile.upload]).disk := by
    intro c hc
    exact (hdisk.2.1 (List.range N) hres c).2 hc
  have htext : (processAudioChunks sc.chunkApi sc.originalname (List.range N)
      (splitAudioIntoChunks sc.probeSplit sc.chunkExec sc.ts
        CHUNK_DURATION_SECONDS [TempFile.upload]).disk).text =
      ((List.range N).map (segOutcome sc.chunkApi sc.originalname)).foldl joinSegment [] := by
    rw [processAudioChunks,
      processChunksLoop_text sc.chunkApi sc.originalname (List.range N) 0 [] 0 _ 0
        (List.nodup_range N) hmem,
      List.length_range, List.range_eq_range']
  rw [transcribeRoute_split_ok sc hop hsp (List.range N) hres]
  simp only [finishRoute, List.length_range]
  refine ⟨_, rfl, rfl, ?_⟩
  simp only
  rw [htext]
  obtain ⟨suffix, hsfx, hord⟩ := foldl_joinSegment_decomp
    ((List.range N).map (segOutcome sc.chunkApi sc.originalname)) []
  rw [hsfx]
  rw [List.nil_append]
  rw [List.map_map] at hord
  refine inOrder_mono _ _ suffix ?_ hord
  apply forall₂_map_same
  intro j hj
  have hjN : j < N := List.mem_range.1 hj
  by_cases hjk : j = k
  · subst hjk
    have : segOutcome sc.chunkApi sc.originalname j = .failure
        (("[Segmento ").data ++ natStr (j + 1) ++ (": ").data ++
          mapTranscriptionError e (some (chunkFileName sc.originalname j)) ++ ("] ").data) := by
      simp [segOutcome, hfail, transcribeAudio_apiErr]
    rw [Function.comp_apply, this]
    refine ⟨(" ").data, ?_⟩
    simp [pieceOfOutcome, if_pos rfl]
  · obtain ⟨hok, htrim, hne⟩ := hothers j hjN hjk
    have : segOutcome sc.chunkApi sc.originalname j = .success (t j) := by
      rw [segOutcome, hok, transcribeAudio_apiOk (t j) _ (by rw [htrim]; exact hne)]
      simp [htrim]
    rw [Function.comp_apply, this]
    refine ⟨[], ?_⟩
    simp [pieceOfOutcome, if_neg hjk]

/-! ### Claim C4: the splitting decision -/

/-- The route's split flag equals the disjunction of the two decision
predicates (for a non-OPUS upload). -/
theorem route_didSplit (sc : RequestEnv) (hop : isOpusName sc.originalname = false) :
    (transcribeRoute sc).didSplit = (shouldSplitBySize sc || shouldSplitByDuration sc) := by
  cases hsp : shouldSplitBySize sc || shouldSplitByDuration sc with
  | true =>
      cases hres : (splitAudioIntoChunks sc.probeSplit sc.chunkExec sc.ts
          CHUNK_DURATION_SECONDS [TempFile.upload]).res with
      | ok chunks => rw [transcribeRoute_split_ok sc hop hsp chunks hres]; rfl
      | error m => rw [transcribeRoute_split_err sc hop hsp m hres]; rfl
  | false =>
      rw [transcribeRoute_single sc hop hsp]
      cases transcribeAudio true sc.singleApi (some sc.originalname) <;> rfl

/-- In the single-file branch, exactly one transcription call is made and
no transcoder invocation or chunk file ever happens. -/
theorem route_single_counters (sc : RequestEnv)
    (hop : isOpusName sc.originalname = false)
    (hsp : (shouldSplitBySize sc || shouldSplitByDuration sc) = false) :
    (transcribeRoute sc).apiCalls = 1 ∧ (transcribeRoute sc).chunksCreated = 0 ∧
      (transcribeRoute sc).invocations = [] := by
  rw [transcribeRoute_single sc hop hsp]
  cases transcribeAudio true sc.singleApi (some sc.originalname) <;> exact ⟨rfl, rfl, rfl⟩

/-- C4: with a successfully probed duration `D`, the pipeline splits if
and only if the byte size exceeds the 24 MB threshold (as megabytes,
`size / (1024·1024) > MAX_CHUNK_SIZE_MB`) or `D` exceeds the 600 s
threshold; below both thresholds exactly one transcription call is made
and no segment file is ever created. -/
theorem c4_split_decision (sc : RequestEnv) (D : ℚ)
    (hop : isOpusName sc.originalname = false)
    (hprobe : sc.probeRoute = some D) :
    ((transcribeRoute sc).didSplit = true ↔
      (MAX_CHUNK_SIZE_MB < ratDiv (natQ sc.size) (natQ (1024 * 1024)) ∨
        CHUNK_DURATION_SECONDS < D)) ∧
    (¬ MAX_CHUNK_SIZE_MB < ratDiv (natQ sc.size) (natQ (1024 * 1024)) →
      ¬ CHUNK_DURATION_SECONDS < D →
      (transcribeRoute sc).apiCalls = 1 ∧ (transcribeRoute sc).chunksCreated = 0 ∧
        (transcribeRoute sc).invocations = []) := by
  have hb : (shouldSplitBySize sc || shouldSplitByDuration sc) = true ↔
      (MAX_CHUNK_SIZE_MB < ratDiv (natQ sc.size) (natQ (1024 * 1024)) ∨
        CHUNK_DURATION_SECONDS < D) := by
    simp [shouldSplitBySize, shouldSplitByDuration, hprobe, getAudioDuration]
  constructor
  · rw [route_didSplit sc hop]
    exact hb
  · intro hsize hdur
    have hsp : (shouldSplitBySize sc || shouldSplitByDuration sc) = false := by
      rcases hx : shouldSplitBySize sc || shouldSplitByDuration sc with _ | _
      · rfl
      · exact absurd (hb.1 hx) (by tauto)
    exact route_single_counters sc hop hsp

/-- Witness for C4 on a 5 MB, 120 s MP3: one API call, no chunks. -/
theorem c4_witness :
    (transcribeRoute
      { originalname := ("a.mp3").data, size := 5 * 1024 * 1024,
        mimeType := ("audio/mpeg").data, conv := .execOk (some 5),
        probeRoute := some 120, probeSplit := some 120,
        chunkExec := fun _ => .ok none, chunkApi := fun _ => .error {},
        singleApi := .ok (("oi").data), ts := 1 }).apiCalls = 1 ∧
    (transcribeRoute
      { originalname := ("a.mp3").data, size := 5 * 1024 * 1024,
        mimeType := ("audio/mpeg").data, conv := .execOk (some 5),
        probeRoute := some 120, probeSplit := some 120,
        chunkExec := fun _ => .ok none, chunkApi := fun _ => .error {},
        singleApi := .ok (("oi").data), ts := 1 }).chunksCreated = 0 ∧
    (transcribeRoute
      { originalname := ("a.mp3").data, size := 5 * 1024 * 1024,
        mimeType := ("audio/mpeg").data, conv := .execOk (some 5),
        probeRoute := some 120, probeSplit := some 120,
        chunkExec := fun _ => .ok none, chunkApi := fun _ => .error {},
        singleApi := .ok (("oi").data), ts := 1 }).invocations = [] :=
  (c4_split_decision _ 120 (by decide) rfl).2 (by decide) (by decide)

/-! ### Claim C5: the splitter's transcoder invocations -/

/-- C5: when no transcoder invocation below `N = ceil(D / C)` throws, the
splitter makes exactly `N` invocations, the `i`-th with start offset
`i·C` and fixed duration `C`, each with a uniquely named, timestamped
output file; in particular a 25-minute input with `C = 600` yields 3
segment attempts. -/
theorem c5_splitter_invocations (D : ℚ) (exec : Nat → ExecOutcome) (ts : Nat)
    (C : ℚ) (d : Disk)
    (hnf : ∀ j < numChunksOf D C, exec j ≠ .fail) :
    (splitAudioIntoChunks (some D) exec ts C d).invs =
      (List.range (numChunksOf D C)).map
        (fun j => ⟨ratMul (natQ j) C, C, chunkName ts j⟩) ∧
    (splitAudioIntoChunks (some D) exec ts C d).invs.length = numChunksOf D C ∧
    ((splitAudioIntoChunks (some D) exec ts C d).invs.map Invocation.outName).Nodup := by
  have hnf' : ∀ j, 0 ≤ j → j < 0 + numChunksOf D C → exec j ≠ .fail := by
    intro j _ hj
    exact hnf j (by omega)
  have hinvs := (splitLoop_run exec ts C (numChunksOf D C) 0 [] d [] 0 hnf').1
  rw [splitAudioIntoChunks_probe_ok]
  rw [← List.range_eq_range'] at hinvs
  rw [hinvs, List.nil_append]
  refine ⟨rfl, by simp, ?_⟩
  rw [List.map_map]
  have : (Invocation.outName ∘ fun j =>
      (⟨ratMul (natQ j) C, C, chunkName ts j⟩ : Invocation)) = chunkName ts := rfl
  rw [this]
  exact (List.nodup_range (numChunksOf D C)).map (chunkName_inj ts)

/-- Witness for C5: a 1500 s input with 600 s chunks yields exactly 3
transcoder invocations. -/
theorem c5_witness :
    (splitAudioIntoChunks (some 1500) (fun _ => .ok (some 2000)) 7 600
      [TempFile.upload]).invs.length = 3 := by
  have h := (c5_splitter_invocations 1500 (fun _ => .ok (some 2000)) 7 600
    [TempFile.upload] (fun j _ => by simp)).2.1
  rw [h]
  decide

/-! ### Claim C6: chunk acceptance, rejection, and the empty case -/

/-- C6: assuming the probe succeeds and no transcoder invocation throws, a
segment index is in the returned chunk list iff its output file was
created with more than 1000 bytes; the chunk files on disk after the
splitter are exactly the accepted ones (undersized ones are deleted); if
no segment survives the splitter fails with the split error; and on a
split failure the route makes no transcription call and responds 500. -/
theorem c6_chunk_acceptance (D : ℚ) (exec : Nat → ExecOutcome) (ts : Nat)
    (C : ℚ) (base : TempFile) (hb : ∀ j, base ≠ TempFile.chunk j)
    (hnf : ∀ j < numChunksOf D C, exec j ≠ .fail) :
    (∀ l, (splitAudioIntoChunks (some D) exec ts C [base]).res = .ok l →
        (∀ j, j ∈ l ↔ j < numChunksOf D C ∧ acceptedAt exec j = true) ∧
        (∀ j, TempFile.chunk j ∈ (splitAudioIntoChunks (some D) exec ts C [base]).disk
          ↔ j ∈ l)) ∧
    ((∀ j < numChunksOf D C, acceptedAt exec j = false) →
        (splitAudioIntoChunks (some D) exec ts C [base]).res = .error splitFailMsg) ∧
    (∀ sc : RequestEnv, isOpusName sc.originalname = false →
      (shouldSplitBySize sc || shouldSplitByDuration sc) = true →
      ∀ m, (splitAudioIntoChunks sc.probeSplit sc.chunkExec sc.ts
          CHUNK_DURATION_SECONDS [TempFile.upload]).res = .error m →
      (transcribeRoute sc).apiCalls = 0 ∧
        (transcribeRoute sc).result.statusCode = 500) := by
  have hnf' : ∀ j, 0 ≤ j → j < 0 + numChunksOf D C → exec j ≠ .fail := by
    intro j _ hj
    exact hnf j (by omega)
  have hd : ∀ j, TempFile.chunk j ∉ ([base] : Disk) := by
    intro j hj
    have : TempFile.chunk j = base := by simpa using hj
    exact hb j this.symm
  have hrun := (splitLoop_run exec ts C (numChunksOf D C) 0 [] [base] [] 0 hnf').2.2
  rw [List.nil_append] at hrun
  refine ⟨?_, ?_, ?_⟩
  · intro l hres
    constructor
    · intro j
      rw [splitAudioIntoChunks_probe_ok] at hres
      rw [hrun] at hres
      by_cases hF : (List.range' 0 (numChunksOf D C)).filter (acceptedAt exec) = []
      · rw [if_pos hF] at hres
        cases hres
      · rw [if_neg hF] at hres
        cases hres
        rw [List.mem_filter, List.mem_range'_1]
        constructor
        · rintro ⟨⟨-, hlt⟩, hacc⟩
          exact ⟨by omega, hacc⟩
        · rintro ⟨hlt, hacc⟩
          exact ⟨⟨by omega, by omega⟩, hacc⟩
    · exact (splitAudioIntoChunks_disk (some D) exec ts C [base] hd).2.1 l hres
  · intro hrej
    rw [splitAudioIntoChunks_probe_ok, hrun]
    have hF : (List.range' 0 (numChunksOf D C)).filter (acceptedAt exec) = [] := by
      rw [List.filter_eq_nil_iff]
      intro j hj
      have : j < numChunksOf D C := by
        have := List.mem_range'_1.1 hj
        omega
      simp [hrej j this]
    rw [if_pos hF]
  · intro sc hop hsp m hres
    rw [transcribeRoute_split_err sc hop hsp m hres]
    exact ⟨rfl, rfl⟩

/-- Witness for C6: when every produced chunk is undersized (500 bytes),
the splitting operation fails with the split error. -/
theorem c6_witness :
    (splitAudioIntoChunks (some 1500) (fun _ => .ok (some 500)) 7 600
      [TempFile.upload]).res = .error splitFailMsg :=
  (c6_chunk_acceptance 1500 (fun _ => .ok (some 500)) 7 600 TempFile.upload
    (fun j h => by cases h) (fun j _ => by simp)).2.1 (fun j _ => by simp [acceptedAt])

/-! ### Fields of every persisted record (shared by claims C7 and C10) -/

/-- Any 200 response of the common route tail carries a record whose word
count is the code's word count of its own stored text and whose duration
is 0 (chunk durations always sum to 0 because the wrapper never returns a
duration, and a single call's absent duration is coalesced to 0). -/
theorem tail_ok_fields (sc : RequestEnv) (isOp : Bool) (base : TempFile) (fn : Str)
    (rec : StoredRecord) (n : Nat)
    (h : (if shouldSplitBySize sc || shouldSplitByDuration sc then
        (let so := splitAudioIntoChunks sc.probeSplit sc.chunkExec sc.ts
            CHUNK_DURATION_SECONDS [base]
         match so.res with
         | .error m => routeCatch isOp m so.disk 0 so.invs so.created true
         | .ok chunks =>
             let po := processAudioChunks sc.chunkApi sc.originalname chunks so.disk
             finishRoute sc (some po.duration) po.text chunks.length base
               po.disk po.calls so.invs so.created true)
      else
        match transcribeAudio true sc.singleApi (some fn) with
        | .error m => routeCatch isOp m [base] 1 [] 0 false
        | .ok r => finishRoute sc r.duration r.text 1 base
            [base] 1 [] 0 false).result = .ok rec n) :
    rec.wordCount = jsWordCount rec.transcriptionText ∧ rec.duration = 0 := by
  by_cases hsp : (shouldSplitBySize sc || shouldSplitByDuration sc) = true
  · rw [if_pos hsp] at h
    cases hres : (splitAudioIntoChunks sc.probeSplit sc.chunkExec sc.ts
        CHUNK_DURATION_SECONDS [base]).res with
    | error m =>
        simp only [hres, routeCatch] at h
        cases h
    | ok chunks =>
        simp only [hres, finishRoute] at h
        have hdur : (processAudioChunks sc.chunkApi sc.originalname chunks
            (splitAudioIntoChunks sc.probeSplit sc.chunkExec sc.ts
              CHUNK_DURATION_SECONDS [base]).disk).duration = 0 := by
          rw [processAudioChunks, processChunksLoop_duration]
        rw [RouteResult.ok.injEq] at h
        rw [← h.1]
        refine ⟨rfl, ?_⟩
        simp [hdur]
  · rw [if_neg hsp] at h
    cases htr : transcribeAudio true sc.singleApi (some fn) with
    | error m =>
        simp only [htr, routeCatch] at h
        cases h
    | ok r =>
        simp only [htr, finishRoute] at h
        rw [RouteResult.ok.injEq] at h
        rw [← h.1]
        obtain ⟨-, t, -, -, rfl⟩ := transcribeAudio_ok htr
        exact ⟨rfl, rfl⟩

/-- Every 200 response of the route carries a record whose word count is
the code's word count of its stored text and whose duration is 0. -/
theorem route_ok_fields (sc : RequestEnv) (rec : StoredRecord) (n : Nat)
    (h : (transcribeRoute sc).result = .ok rec n) :
    rec.wordCount = jsWordCount rec.transcriptionText ∧ rec.duration = 0 := by
  cases hop : isOpusName sc.originalname with
  | false =>
      rw [transcribeRoute_nonopus sc hop] at h
      exact tail_ok_fields sc false TempFile.upload sc.originalname rec n h
  | true =>
      cases hconv : sc.conv with
      | execFail m =>
          simp [transcribeRoute, hop, hconv, convertOpusToMp3, routeCatch] at h
      | execOk osize =>
          cases osize with
          | none =>
              simp [transcribeRoute, hop, hconv, convertOpusToMp3, routeCatch] at h
          | some size =>
              cases size with
              | zero =>
                  simp [transcribeRoute, hop, hconv, convertOpusToMp3, routeCatch] at h
              | succ s =>
                  rw [transcribeRoute_opus_ok sc (s + 1) hop hconv (Nat.succ_ne_zero s)] at h
                  exact tail_ok_fields sc true TempFile.conv
                    (replaceOpus sc.originalname) rec n h

/-- C7: for every request that produces a result record, the stored word
count equals the number of non-empty whitespace-delimited tokens of the
stored transcript text. -/
theorem c7_word_count (sc : RequestEnv) (rec : StoredRecord) (n : Nat)
    (h : (transcribeRoute sc).result = .ok rec n) :
    rec.wordCount = tokenCount rec.transcriptionText := by
  rw [(route_ok_fields sc rec n h).1]
  exact jsWordCount_eq_tokenCount rec.transcriptionText

/-- Witness for C7 on a concrete single-file success. -/
theorem c7_witness :
    (transcribeRoute
        { originalname := ("a.mp3").data, size := 5 * 1024 * 1024,
          mimeType := ("audio/mpeg").data, conv := .execOk (some 5),
          probeRoute := some 120, probeSplit := some 120,
          chunkExec := fun _ => .ok none, chunkApi := fun _ => .error {},
          singleApi := .ok ((" oi tudo bem ").data), ts := 1 }).result =
      .ok { filename := ("a.mp3").data, originalSize := 5 * 1024 * 1024,
            mimeType := ("audio/mpeg").data, duration := 0,
            transcriptionText := ("oi tudo bem").data, wordCount := 3,
            confidence := Rat.divInt 94 100, processingTime := 0 } 1 ∧
    ({ filename := ("a.mp3").data, originalSize := 5 * 1024 * 1024,
       mimeType := ("audio/mpeg").data, duration := 0,
       transcriptionText := ("oi tudo bem").data, wordCount := 3,
       confidence := Rat.divInt 94 100, processingTime := 0 } : StoredRecord).wordCount =
      tokenCount ("oi tudo bem").data :=
  ⟨by decide, c7_word_count
    { originalname := ("a.mp3").data, size := 5 * 1024 * 1024,
      mimeType := ("audio/mpeg").data, conv := .execOk (some 5),
      probeRoute := some 120, probeSplit := some 120,
      chunkExec := fun _ => .ok none, chunkApi := fun _ => .error {},
      singleApi := .ok ((" oi tudo bem ").data), ts := 1 }
    { filename := ("a.mp3").data, originalSize := 5 * 1024 * 1024,
      mimeType := ("audio/mpeg").data, duration := 0,
      transcriptionText := ("oi tudo bem").data, wordCount := 3,
      confidence := Rat.divInt 94 100, processingTime := 0 } 1 (by decide)⟩

/-- C10: every persisted record of a completed request stores duration 0:
the wrapper always returns an absent duration, the chunk driver sums these
absences to 0, and the route coalesces a missing duration to 0. -/
theorem c10_duration_zero (sc : RequestEnv) (rec : StoredRecord) (n : Nat)
    (h : (transcribeRoute sc).result = .ok rec n) :
    rec.duration = 0 :=
  (route_ok_fields sc rec n h).2

/-- Witness for C10 on a concrete chunked run (two chunks, both
transcribed). -/
theorem c10_witness :
    (transcribeRoute
        { originalname := ("b.mp3").data, size := 30 * 1024 * 1024,
          mimeType := ("audio/mpeg").data, conv := .execOk (some 5),
          probeRoute := some 1200, probeSplit := some 1200,
          chunkExec := fun _ => .ok (some 2000), chunkApi := fun _ => .ok (("ola").data),
          singleApi := .ok (("x").data), ts := 2 }).result =
      .ok { filename := ("b.mp3").data, originalSize := 30 * 1024 * 1024,
            mimeType := ("audio/mpeg").data, duration := 0,
            transcriptionText := ("ola ola").data, wordCount := 2,
            confidence := Rat.divInt 94 100, processingTime := 0 } 2 ∧
    ({ filename := ("b.mp3").data, originalSize := 30 * 1024 * 1024,
       mimeType := ("audio/mpeg").data, duration := 0,
       transcriptionText := ("ola ola").data, wordCount := 2,
       confidence := Rat.divInt 94 100, processingTime := 0 } : StoredRecord).duration = 0 :=
  ⟨by decide, c10_duration_zero
    { originalname := ("b.mp3").data, size := 30 * 1024 * 1024,
      mimeType := ("audio/mpeg").data, conv := .execOk (some 5),
      probeRoute := some 1200, probeSplit := some 1200,
      chunkExec := fun _ => .ok (some 2000), chunkApi := fun _ => .ok (("ola").data),
      singleApi := .ok (("x").data), ts := 2 }
    { filename := ("b.mp3").data, originalSize := 30 * 1024 * 1024,
      mimeType := ("audio/mpeg").data, duration := 0,
      transcriptionText := ("ola ola").data, wordCount := 2,
      confidence := Rat.divInt 94 100, processingTime := 0 } 2 (by decide)⟩

/-- Witness for C3: three accepted chunks, the middle segment's API call
rejected with HTTP 413, the others transcribing to "ola". -/
theorem c3_witness :
    ∃ rec : StoredRecord,
      (transcribeRoute
        { originalname := ("a.mp3").data, size := 30 * 1024 * 1024,
          mimeType := ("audio/mpeg").data, conv := .execOk (some 5),
          probeRoute := some 1500, probeSplit := some 1500,
          chunkExec := fun _ => .ok (some 2000),
          chunkApi := fun i => if i = 1 then .error {status := some 413}
            else .ok (("ola").data),
          singleApi := .ok (("x").data), ts := 7 }).result = .ok rec 3 ∧
      (transcribeRoute
        { originalname := ("a.mp3").data, size := 30 * 1024 * 1024,
          mimeType := ("audio/mpeg").data, conv := .execOk (some 5),
          probeRoute := some 1500, probeSplit := some 1500,
          chunkExec := fun _ => .ok (some 2000),
          chunkApi := fun i => if i = 1 then .error {status := some 413}
            else .ok (("ola").data),
          singleApi := .ok (("x").data), ts := 7 }).result.statusCode = 200 ∧
      inOrder ((List.range 3).map (fun j =>
        if j = 1 then
          ("[Segmento ").data ++ natStr (1 + 1) ++ (": ").data ++
            mapTranscriptionError {status := some 413}
              (some (chunkFileName (("a.mp3").data) 1)) ++ ("]").data
        else ("ola").data)) rec.transcriptionText :=
  c3_segment_failure_isolated
    { originalname := ("a.mp3").data, size := 30 * 1024 * 1024,
      mimeType := ("audio/mpeg").data, conv := .execOk (some 5),
      probeRoute := some 1500, probeSplit := some 1500,
      chunkExec := fun _ => .ok (some 2000),
      chunkApi := fun i => if i = 1 then .error {status := some 413}
        else .ok (("ola").data),
      singleApi := .ok (("x").data), ts := 7 }
    1500 1 3 (fun _ => ("ola").data) {status := some 413}
    (by decide) rfl (by decide) (by decide) (by decide)
    (fun i _ => ⟨2000, rfl, by decide⟩)
    (by decide) rfl
    (fun j _ hne => ⟨by simp [hne],
      by show trimStr (("ola").data) = ("ola").data; decide,
      by show ("ola").data ≠ []; decide⟩)

/-! ### Claim C8: probe failure degrades to the size-only decision -/

/-- C8: when the duration probe fails and the file is at or below the byte
threshold, the request is not aborted: the pipeline does not split, makes
exactly one transcription call, creates no segment file, and a successful
single transcription still yields a 200 response. -/
theorem c8_probe_failure_fallback (sc : RequestEnv)
    (hop : isOpusName sc.originalname = false)
    (hprobe : sc.probeRoute = none)
    (hsize : ¬ MAX_CHUNK_SIZE_MB < ratDiv (natQ sc.size) (natQ (1024 * 1024))) :
    (transcribeRoute sc).didSplit = false ∧
    (transcribeRoute sc).apiCalls = 1 ∧
    (transcribeRoute sc).chunksCreated = 0 ∧
    (transcribeRoute sc).invocations = [] ∧
    (∀ t, sc.singleApi = .ok t → trimStr t ≠ [] →
      (transcribeRoute sc).result.statusCode = 200) := by
  have hsp : (shouldSplitBySize sc || shouldSplitByDuration sc) = false := by
    simp [shouldSplitBySize, shouldSplitByDuration, hprobe, getAudioDuration, hsize]
  obtain ⟨hc1, hc2, hc3⟩ := route_single_counters sc hop hsp
  refine ⟨?_, hc1, hc2, hc3, ?_⟩
  · rw [route_didSplit sc hop, hsp]
  · intro t ht htr
    rw [transcribeRoute_single sc hop hsp, ht, transcribeAudio_apiOk t _ htr]
    rfl

/-- Witness for C8: a 5 MB file whose probe fails is transcribed in one
call without splitting and responds 200. -/
theorem c8_witness :
    (transcribeRoute
      { originalname := ("c.mp3").data, size := 5 * 1024 * 1024,
        mimeType := ("audio/mpeg").data, conv := .execOk (some 5),
        probeRoute := none, probeSplit := none,
        chunkExec := fun _ => .fail, chunkApi := fun _ => .error {},
        singleApi := .ok (("oi").data), ts := 3 }).didSplit = false ∧
    (transcribeRoute
      { originalname := ("c.mp3").data, size := 5 * 1024 * 1024,
        mimeType := ("audio/mpeg").data, conv := .execOk (some 5),
        probeRoute := none, probeSplit := none,
        chunkExec := fun _ => .fail, chunkApi := fun _ => .error {},
        singleApi := .ok (("oi").data), ts := 3 }).apiCalls = 1 ∧
    (transcribeRoute
      { originalname := ("c.mp3").data, size := 5 * 1024 * 1024,
        mimeType := ("audio/mpeg").data, conv := .execOk (some 5),
        probeRoute := none, probeSplit := none,
        chunkExec := fun _ => .fail, chunkApi := fun _ => .error {},
        singleApi := .ok (("oi").data), ts := 3 }).result.statusCode = 200 := by
  have h := c8_probe_failure_fallback
    { originalname := ("c.mp3").data, size := 5 * 1024 * 1024,
      mimeType := ("audio/mpeg").data, conv := .execOk (some 5),
      probeRoute := none, probeSplit := none,
      chunkExec := fun _ => .fail, chunkApi := fun _ => .error {},
      singleApi := .ok (("oi").data), ts := 3 }
    (by decide) rfl (by decide)
  exact ⟨h.1, h.2.1, h.2.2.2.2 (("oi").data) rfl (by decide)⟩

/-! ### Claim C9: the error-message mapping of the transcription wrapper -/

/-- C9: each known API failure class maps to its own localized message,
the nine messages are pairwise distinct (in particular the `.m4a` HTTP 400
remediation message differs from the generic HTTP 400 message), and an
error with no recognized `code` or `status` falls back to the generic
message. -/
theorem c9_error_mapping :
    (∀ (e : JsError) (fn : Option Str), e.code = some (("invalid_api_key").data) →
        mapTranscriptionError e fn = msgInvalidKey) ∧
    (∀ (e : JsError) (fn : Option Str), e.code = some (("insufficient_quota").data) →
        mapTranscriptionError e fn = msgQuota) ∧
    (∀ (e : JsError) (fn : Option Str), e.code = some (("model_not_found").data) →
        mapTranscriptionError e fn = msgModelNotFound) ∧
    (∀ (e : JsError) (fn : Option Str), e.code = none → e.status = some 413 →
        mapTranscriptionError e fn = msgTooLarge) ∧
    (∀ (e : JsError) (f : Str), e.code = none → e.status = some 400 →
        ((".m4a").data).isSuffixOf (lowerStr f) = true →
        mapTranscriptionError e (some f) = msgM4a) ∧
    (∀ (e : JsError) (fn : Option Str), e.code = none → e.status = some 400 →
        (∀ f, fn = some f → ((".m4a").data).isSuffixOf (lowerStr f) = false) →
        mapTranscriptionError e fn = msgBadRequest) ∧
    (∀ (e : JsError) (fn : Option Str) (s : Nat), e.code = none → e.status = some s →
        500 ≤ s → mapTranscriptionError e fn = msg5xx) ∧
    (∀ (e : JsError) (fn : Option Str), e.status = none →
        (e.code = some (("ENOTFOUND").data) ∨ e.code = some (("ECONNREFUSED").data)) →
        mapTranscriptionError e fn = msgConnection) ∧
    (∀ (e : JsError) (fn : Option Str),
        (∀ c, e.code = some c →
          c ≠ (("invalid_api_key").data) ∧ c ≠ (("insufficient_quota").data) ∧
          c ≠ (("model_not_found").data) ∧ c ≠ (("ENOTFOUND").data) ∧
          c ≠ (("ECONNREFUSED").data)) →
        (∀ s, e.status = some s → s ≠ 413 ∧ s ≠ 400 ∧ s < 500) →
        mapTranscriptionError e fn = msgGeneric) ∧
    [msgInvalidKey, msgQuota, msgModelNotFound, msgTooLarge, msgM4a, msgBadRequest,
      msg5xx, msgConnection, msgGeneric].Nodup := by
  refine ⟨?_, ?_, ?_, ?_, ?_, ?_, ?_, ?_, ?_, ?_⟩
  · rintro ⟨c, st⟩ fn h
    simp only at h
    subst h
    rfl
  · rintro ⟨c, st⟩ fn h
    simp only at h
    subst h
    rfl
  · rintro ⟨c, st⟩ fn h
    simp only at h
    subst h
    rfl
  · rintro ⟨c, st⟩ fn h1 h2
    simp only at h1 h2
    subst h1
    subst h2
    rfl
  · rintro ⟨c, st⟩ f h1 h2 hsuf
    simp only at h1 h2
    subst h1
    subst h2
    simp [mapTranscriptionError, hsuf]
  · rintro ⟨c, st⟩ fn h1 h2 hnot
    simp only at h1 h2
    subst h1
    subst h2
    cases fn with
    | none => rfl
    | some f =>
        have := hnot f rfl
        simp [mapTranscriptionError, this]
  · rintro ⟨c, st⟩ fn s h1 h2 hge
    simp only at h1 h2
    subst h1
    subst h2
    have h413 : s ≠ 413 := by omega
    have h400 : s ≠ 400 := by omega
    simp [mapTranscriptionError, h413, h400, hge]
  · rintro ⟨c, st⟩ fn h1 h2
    simp only at h1 h2
    subst h1
    rcases h2 with h | h <;> subst h <;> rfl
  · rintro ⟨c, st⟩ fn hcode hstatus
    simp only at hcode hstatus
    cases c with
    | none =>
        cases st with
        | none => rfl
        | some s =>
            obtain ⟨h413, h400, hlt⟩ := hstatus s rfl
            have hge : ¬ 500 ≤ s := by omega
            simp [mapTranscriptionError, h413, h400, hge]
    | some x =>
        obtain ⟨h1, h2, h3, h4, h5⟩ := hcode x rfl
        cases st with
        | none => simp [mapTranscriptionError, h1, h2, h3, h4, h5]
        | some s =>
            obtain ⟨h413, h400, hlt⟩ := hstatus s rfl
            have hge : ¬ 500 ≤ s := by omega
            simp [mapTranscriptionError, h1, h2, h3, h4, h5, h413, h400, hge]
  · decide

/-- Witness for C9 at concrete error objects, including unmapped errors
with an unrecognized status (HTTP 429) and with an unrecognized code. -/
theorem c9_witness :
    mapTranscriptionError { code := some (("invalid_api_key").data) } none = msgInvalidKey ∧
    mapTranscriptionError { status := some 413 } none = msgTooLarge ∧
    mapTranscriptionError { status := some 400 } (some (("voz.m4a").data)) = msgM4a ∧
    mapTranscriptionError { status := some 429 } none = msgGeneric ∧
    mapTranscriptionError { code := some (("socket_hang_up").data) } none = msgGeneric :=
  ⟨c9_error_mapping.1 { code := some (("invalid_api_key").data) } none rfl,
   c9_error_mapping.2.2.2.1 { status := some 413 } none rfl rfl,
   c9_error_mapping.2.2.2.2.1 { status := some 400 } (("voz.m4a").data) rfl rfl (by decide),
   c9_error_mapping.2.2.2.2.2.2.2.2.1 { status := some 429 } none
     (fun c hc => by cases hc)
     (fun s hs => by cases hs; exact ⟨by decide, by decide, by decide⟩),
   c9_error_mapping.2.2.2.2.2.2.2.2.1 { code := some (("socket_hang_up").data) } none
     (fun c hc => by cases hc; exact ⟨by decide, by decide, by decide, by decide, by decide⟩)
     (fun s hs => by cases hs)⟩

end Audio1712
